import Mathlib

/-!
Verification development for the uniform-grid math routines of VorteGrid
(`Core/SpatialPartition/uniformGridMath.cpp`): the finite-difference gradient
operators, the red-black Gauss-Seidel/SOR vector-Poisson relaxation step and
solver loop, and the grid statistics reductions.

The embedding is exact-arithmetic: C `float` values are modelled as `ℚ`
(the sentinel "invalid value" / NaN of `ComputeGradientConditionally` is
modelled as `Option ℚ` with `none` standing for NaN, and arithmetic on it
propagating `none`).  `size_t` loop indices and flat grid offsets are `ℕ`;
the source never underflows `size_t` at any index the loops actually read,
so natural subtraction agrees with the source arithmetic there.  Grids are
modelled through the narrow container interface the code consumes:
per-axis point counts, a cell-spacing vector, and flat-offset addressing
`offset = x + dims.x*y + dims.x*dims.y*z`.
-/

/-- A 3-vector of rationals, modelling `Vec3` (and `Vec3`-valued grid samples). -/
structure V3 where
  x : ℚ
  y : ℚ
  z : ℚ
deriving DecidableEq

instance : Add V3 := ⟨fun a b => ⟨a.x + b.x, a.y + b.y, a.z + b.z⟩⟩

instance : Sub V3 := ⟨fun a b => ⟨a.x - b.x, a.y - b.y, a.z - b.z⟩⟩

instance : Neg V3 := ⟨fun a => ⟨-a.x, -a.y, -a.z⟩⟩

instance : Zero V3 := ⟨⟨0, 0, 0⟩⟩

instance : SMul ℚ V3 := ⟨fun q v => ⟨q * v.x, q * v.y, q * v.z⟩⟩

@[simp] theorem V3.add_x (a b : V3) : (a + b).x = a.x + b.x := rfl

@[simp] theorem V3.add_y (a b : V3) : (a + b).y = a.y + b.y := rfl

@[simp] theorem V3.add_z (a b : V3) : (a + b).z = a.z + b.z := rfl

@[simp] theorem V3.sub_x (a b : V3) : (a - b).x = a.x - b.x := rfl

@[simp] theorem V3.sub_y (a b : V3) : (a - b).y = a.y - b.y := rfl

@[simp] theorem V3.sub_z (a b : V3) : (a - b).z = a.z - b.z := rfl

@[simp] theorem V3.smul_x (q : ℚ) (v : V3) : (q • v).x = q * v.x := rfl

@[simp] theorem V3.smul_y (q : ℚ) (v : V3) : (q • v).y = q * v.y := rfl

@[simp] theorem V3.smul_z (q : ℚ) (v : V3) : (q • v).z = q * v.z := rfl

@[simp] theorem V3.zero_x : (0 : V3).x = 0 := rfl

@[simp] theorem V3.zero_y : (0 : V3).y = 0 := rfl

@[simp] theorem V3.zero_z : (0 : V3).z = 0 := rfl

/-- A 3-vector of `Option ℚ` samples, modelling a `Vec3` whose components may
hold the `UNIFORM_GRID_INVALID_VALUE` (NaN) sentinel, as written by
`ComputeGradientConditionally`.  `none` is the sentinel. -/
structure V3N where
  x : Option ℚ
  y : Option ℚ
  z : Option ℚ
deriving DecidableEq

/-- NaN-propagating subtraction on `Option ℚ` samples (float arithmetic on a
NaN operand yields NaN). -/
def osub (a b : Option ℚ) : Option ℚ :=
  match a, b with
  | some q, some r => some (q - r)
  | _, _ => none

/-- NaN-propagating multiplication of an `Option ℚ` sample by a plain rational. -/
def omul (a : Option ℚ) (q : ℚ) : Option ℚ := a.map (fun r => r * q)

/-- A grid point's 3D index `(x, y, z)`. -/
abbrev GridPoint := ℕ × ℕ × ℕ

/-- The narrow `UniformGrid<T>` interface the math routines consume:
per-axis point counts (`GetNumPoints`), cell spacing (`GetCellSpacing`) and
flat-indexed element access (`operator[]`).  `data` is total on `ℕ`; the
routines only ever read offsets of in-bounds points. -/
structure Grid (α : Type) where
  nx : ℕ
  ny : ℕ
  nz : ℕ
  spacing : V3
  data : ℕ → α

/-- Row-major flat offset of a 3D index: `x + dims.x*y + dims.x*dims.y*z`,
exactly the offset arithmetic of the `ASSIGN_*_OFFSETS` macros. -/
def flatOffset (nx ny : ℕ) (p : GridPoint) : ℕ :=
  p.1 + nx * p.2.1 + nx * ny * p.2.2

/-- Whether a 3D index lies inside a grid's point counts. -/
def inBounds (nx ny nz : ℕ) (p : GridPoint) : Prop :=
  p.1 < nx ∧ p.2.1 < ny ∧ p.2.2 < nz

instance (nx ny nz : ℕ) (p : GridPoint) : Decidable (inBounds nx ny nz p) := by
  unfold inBounds; infer_instance

/-- Writing one sample at a flat offset (in-place grid mutation `g[n] = v`). -/
def writeG {α : Type} (g : Grid α) (n : ℕ) (v : α) : Grid α :=
  { g with data := fun m => if m = n then v else g.data m }

theorem flatOffset_eq (nx ny : ℕ) (p : GridPoint) :
    flatOffset nx ny p = p.1 + nx * (p.2.1 + ny * p.2.2) := by
  unfold flatOffset; ring

/-- Decoding a flat offset of an in-bounds point recovers the 3D index. -/
theorem flatOffset_decode (nx ny : ℕ) {p : GridPoint} (h1 : p.1 < nx) (h2 : p.2.1 < ny) :
    flatOffset nx ny p % nx = p.1 ∧ flatOffset nx ny p / nx % ny = p.2.1 ∧
      flatOffset nx ny p / nx / ny = p.2.2 := by
  have hx : 0 < nx := lt_of_le_of_lt (Nat.zero_le _) h1
  have hy : 0 < ny := lt_of_le_of_lt (Nat.zero_le _) h2
  rw [flatOffset_eq]
  refine ⟨?_, ?_, ?_⟩
  · rw [Nat.add_mul_mod_self_left, Nat.mod_eq_of_lt h1]
  · rw [Nat.add_mul_div_left _ _ hx, Nat.div_eq_of_lt h1, Nat.zero_add,
      Nat.add_mul_mod_self_left, Nat.mod_eq_of_lt h2]
  · rw [Nat.add_mul_div_left _ _ hx, Nat.div_eq_of_lt h1, Nat.zero_add,
      Nat.add_mul_div_left _ _ hy, Nat.div_eq_of_lt h2, Nat.zero_add]

/-- Flat offsets of distinct in-bounds points are distinct (the row-major
encoding is injective), so in-place writes at one point never alias another. -/
theorem flatOffset_inj (nx ny : ℕ) {p q : GridPoint}
    (hp1 : p.1 < nx) (hp2 : p.2.1 < ny) (hq1 : q.1 < nx) (hq2 : q.2.1 < ny)
    (h : flatOffset nx ny p = flatOffset nx ny q) : p = q := by
  obtain ⟨d1, d2, d3⟩ := flatOffset_decode nx ny hp1 hp2
  obtain ⟨e1, e2, e3⟩ := flatOffset_decode nx ny hq1 hq2
  obtain ⟨i, j, k⟩ := p
  obtain ⟨i', j', k'⟩ := q
  simp only at d1 d2 d3 e1 e2 e3
  rw [h] at d1 d2 d3
  simp only [Prod.mk.injEq]
  exact ⟨d1.symm.trans e1, d2.symm.trans e2, d3.symm.trans e3⟩

/-- The list `[a, a+1, ..., b-1]`, modelling `for (i = a; i < b; ++i)`. -/
def countUp (a b : ℕ) : List ℕ := List.range' a (b - a)

/-- The list `[a, a+2, a+4, ...]` below `b`, modelling `for (i = a; i < b; i += 2)`. -/
def countUp2 (a b : ℕ) : List ℕ := List.range' a ((b - a + 1) / 2) 2

/-- Index list of `for (i = a; i < b; i += s)` for stride `s ∈ {1, 2}`
(the only strides the code uses: `iyStep` is 1 for `GS_BOTH`, else 2). -/
def countUpStep (a b s : ℕ) : List ℕ := List.range' a ((b - a + s - 1) / s) s

theorem countUpStep_one (a b : ℕ) : countUpStep a b 1 = countUp a b := by
  unfold countUpStep countUp
  norm_num

theorem countUpStep_two (a b : ℕ) : countUpStep a b 2 = countUp2 a b := by
  unfold countUpStep countUp2
  norm_num

theorem mem_countUp {a b m : ℕ} : m ∈ countUp a b ↔ a ≤ m ∧ m < b := by
  unfold countUp
  rw [List.mem_range'_1]
  omega

theorem mem_countUp2 {a b m : ℕ} :
    m ∈ countUp2 a b ↔ a ≤ m ∧ m < b ∧ (m - a) % 2 = 0 := by
  unfold countUp2
  rw [List.mem_range']
  constructor
  · rintro ⟨i, hi, rfl⟩
    omega
  · rintro ⟨h1, h2, h3⟩
    exact ⟨(m - a) / 2, by omega, by omega⟩

theorem nodup_countUp (a b : ℕ) : (countUp a b).Nodup :=
  List.nodup_range' a (b - a)

theorem nodup_countUp2 (a b : ℕ) : (countUp2 a b).Nodup :=
  List.nodup_range' a ((b - a + 1) / 2) 2 (by norm_num)

/-- Folding grid writes leaves every untouched flat offset unchanged. -/
theorem foldl_write_frame {α : Type} (nx ny : ℕ) (F : Grid α → GridPoint → α)
    (l : List GridPoint) (g : Grid α) (n : ℕ)
    (h : ∀ q ∈ l, flatOffset nx ny q ≠ n) :
    (l.foldl (fun s q => writeG s (flatOffset nx ny q) (F s q)) g).data n = g.data n := by
  induction l generalizing g with
  | nil => rfl
  | cons q rest ih =>
    rw [List.foldl_cons, ih _ (fun r hr => h r (List.mem_cons_of_mem _ hr))]
    exact if_neg fun hn => h q (List.mem_cons_self _ _) hn.symm

/-- Folding grid writes preserves the grid's shape metadata. -/
theorem foldl_write_shape {α : Type} (nx ny : ℕ) (F : Grid α → GridPoint → α)
    (l : List GridPoint) (g : Grid α) :
    (l.foldl (fun s q => writeG s (flatOffset nx ny q) (F s q)) g).nx = g.nx ∧
    (l.foldl (fun s q => writeG s (flatOffset nx ny q) (F s q)) g).ny = g.ny ∧
    (l.foldl (fun s q => writeG s (flatOffset nx ny q) (F s q)) g).nz = g.nz ∧
    (l.foldl (fun s q => writeG s (flatOffset nx ny q) (F s q)) g).spacing = g.spacing := by
  induction l generalizing g with
  | nil => exact ⟨rfl, rfl, rfl, rfl⟩
  | cons q rest ih => exact ih (writeG g (flatOffset nx ny q) (F g q))

/-- When every visit to a point writes the same state-independent value, a
point that the loop visits ends up holding that value (last write wins, and
all writes agree). -/
theorem foldl_write_mem_const {α : Type} (nx ny : ℕ) (F : GridPoint → α)
    (l : List GridPoint) (g : Grid α) (p : GridPoint) (hmem : p ∈ l)
    (hinj : ∀ q ∈ l, q ≠ p → flatOffset nx ny q ≠ flatOffset nx ny p) :
    (l.foldl (fun s q => writeG s (flatOffset nx ny q) (F q)) g).data (flatOffset nx ny p)
      = F p := by
  induction l generalizing g with
  | nil => cases hmem
  | cons q rest ih =>
    rw [List.foldl_cons]
    by_cases hp : p ∈ rest
    · exact ih _ hp (fun r hr => hinj r (List.mem_cons_of_mem _ hr))
    · have hqp : q = p := by
        rcases List.mem_cons.mp hmem with h | h
        · exact h.symm
        · exact absurd h hp
      subst hqp
      rw [foldl_write_frame nx ny _ rest _ _
        (fun r hr => hinj r (List.mem_cons_of_mem _ hr) (fun hrq => hp (hrq ▸ hr)))]
      exact if_pos rfl

/-- Sequential in-place relaxation: a point visited by a duplicate-free write
loop ends with the update function applied to the intermediate state reached
just before its own visit.  The returned split pins down that intermediate
state as the fold over the unique prefix preceding the point. -/
theorem foldl_write_mem_split {α : Type} (nx ny : ℕ) (F : Grid α → GridPoint → α)
    (l : List GridPoint) (g : Grid α) (p : GridPoint) (hmem : p ∈ l) (hnd : l.Nodup)
    (hinj : ∀ q ∈ l, q ≠ p → flatOffset nx ny q ≠ flatOffset nx ny p) :
    ∃ l₁ l₂, l = l₁ ++ p :: l₂ ∧
      (l.foldl (fun s q => writeG s (flatOffset nx ny q) (F s q)) g).data (flatOffset nx ny p)
        = F (l₁.foldl (fun s q => writeG s (flatOffset nx ny q) (F s q)) g) p := by
  induction l generalizing g with
  | nil => cases hmem
  | cons q rest ih =>
    by_cases hp : p ∈ rest
    · have hqp : q ≠ p := by
        rintro rfl
        exact (List.nodup_cons.mp hnd).1 hp
      obtain ⟨l₁, l₂, hsplit, hval⟩ := ih (writeG g (flatOffset nx ny q) (F g q)) hp
        (List.nodup_cons.mp hnd).2 (fun r hr => hinj r (List.mem_cons_of_mem _ hr))
      exact ⟨q :: l₁, l₂, by rw [List.cons_append, hsplit], by rw [List.foldl_cons]; exact hval⟩
    · have hqp : q = p := by
        rcases List.mem_cons.mp hmem with h | h
        · exact h.symm
        · exact absurd h hp
      subst hqp
      refine ⟨[], rest, rfl, ?_⟩
      rw [List.foldl_cons,
        foldl_write_frame nx ny _ rest _ _
          (fun r hr => hinj r (List.mem_cons_of_mem _ hr) (fun hrq => hp (hrq ▸ hr)))]
      simp [writeG, List.foldl_nil]

/-- Machine epsilon of `float`, the exact value of `FLT_EPSILON` (2⁻²³). -/
def FLT_EPSILON : ℚ := 1 / 8388608

/-- Largest finite `float`, the exact value of `FLT_MAX` ((2 − 2⁻²³)·2¹²⁷). -/
def FLT_MAX : ℚ := 340282346638528859811704183484516925440

/-- Reciprocal cell spacing as every routine in the file computes it:
`Vec3( 1.0f / spacing.x , 1.0f / spacing.y , spacing.z > FLT_EPSILON ? 1.0f / spacing.z : 0.0f )`.
Only the z component carries the divide-by-zero guard. -/
def reciprocalSpacing (s : V3) : V3 :=
  ⟨1 / s.x, 1 / s.y, if FLT_EPSILON < s.z then 1 / s.z else 0⟩

theorem reciprocalSpacing_x (s : V3) : (reciprocalSpacing s).x = 1 / s.x := rfl

theorem reciprocalSpacing_y (s : V3) : (reciprocalSpacing s).y = 1 / s.y := rfl

/-- `0.5f * reciprocalSpacing`, as computed alongside `reciprocalSpacing`. -/
def halfReciprocalSpacing (s : V3) : V3 :=
  (1 / 2 : ℚ) • reciprocalSpacing s

/-- `GaussSeidelPortionE`: which red-black portion a relaxation pass updates. -/
inductive GaussSeidelPortionE where
  | GS_RED
  | GS_BLACK
  | GS_BOTH
deriving DecidableEq

open GaussSeidelPortionE

/-- The numeric value of a `GaussSeidelPortionE` constant (`GS_RED = 0`,
`GS_BLACK = 1`, `GS_BOTH = 2`); the parity tests depend on these values. -/
def gsValue : GaussSeidelPortionE → ℕ
  | GS_RED => 0
  | GS_BLACK => 1
  | GS_BOTH => 2

/-- `BoundaryConditionE`: which boundary condition the solver enforces. -/
inductive BoundaryConditionE where
  | BC_NEUMANN
  | BC_DIRICHLET
deriving DecidableEq

open BoundaryConditionE

/-- `ASSIGN_Y_SHIFT`: `idxYShift = ( index[2] % 2 == unsigned( redOrBlack ) ) ? 1 : 0`. -/
def yShift (redOrBlack : GaussSeidelPortionE) (iz : ℕ) : ℕ :=
  if iz % 2 = gsValue redOrBlack then 1 else 0

/-- `iyStep = ( GS_BOTH == redOrBlack ) ? 1 : 2`. -/
def iyStep (redOrBlack : GaussSeidelPortionE) : ℕ :=
  if GS_BOTH = redOrBlack then 1 else 2

/-- The SOR relaxation factor: `const float relax = 1.72f`. -/
def relax : ℚ := 1.72

/-- The ordered list of interior points one call to
`StepTowardVectorPoissonSolution` updates: `index[2]` runs over
`[max(1, izStart), min(dims[2]-1, izEnd))`, `index[1]` from `1 + idxYShift`
to `dims[1]-1` with stride `iyStep`, `index[0]` over `[1, dims[0]-1)`. -/
def interiorPoints (nx ny nz izStart izEnd : ℕ) (redOrBlack : GaussSeidelPortionE) :
    List GridPoint :=
  (countUp (max 1 izStart) (min (nz - 1) izEnd)).flatMap fun k =>
    (countUpStep (1 + yShift redOrBlack k) (ny - 1) (iyStep redOrBlack)).flatMap fun j =>
      (countUp 1 (nx - 1)).map fun i => (i, j, k)

/-- The Gauss-Seidel/SOR update value written at one interior point:
`vSolution = ( (soln[xp]+soln[xm])*rs2.x + (soln[yp]+soln[ym])*rs2.y
             + (soln[zp]+soln[zm])*rs2.z - lap[p] ) * HalfSpacing2Sum`,
then `soln[p] = oneMinusRelax * soln[p] + relax * vSolution`.  Grid shape and
spacing are read from `lap`, as in the source. -/
def sorValue (s lap : Grid V3) (p : GridPoint) : V3 :=
  let nx := lap.nx
  let ny := lap.ny
  let r := reciprocalSpacing lap.spacing
  let rs2 : V3 := ⟨r.x ^ 2, r.y ^ 2, r.z ^ 2⟩
  let halfSpacing2Sum : ℚ := (1 / 2) / (rs2.x + rs2.y + rs2.z)
  let o := flatOffset nx ny p
  let vSolution : V3 := halfSpacing2Sum •
    (rs2.x • (s.data (flatOffset nx ny (p.1 + 1, p.2.1, p.2.2))
              + s.data (flatOffset nx ny (p.1 - 1, p.2.1, p.2.2)))
     + rs2.y • (s.data (flatOffset nx ny (p.1, p.2.1 + 1, p.2.2))
                + s.data (flatOffset nx ny (p.1, p.2.1 - 1, p.2.2)))
     + rs2.z • (s.data (flatOffset nx ny (p.1, p.2.1, p.2.2 + 1))
                + s.data (flatOffset nx ny (p.1, p.2.1, p.2.2 - 1)))
     - lap.data o)
  (1 - relax) • s.data o + relax • vSolution

/-- One in-place interior SOR write. -/
def sorStep (lap : Grid V3) (s : Grid V3) (p : GridPoint) : Grid V3 :=
  writeG s (flatOffset lap.nx lap.ny p) (sorValue s lap p)

/-- `Clamp( x , lo , hi )`. -/
def clampN (x lo hi : ℕ) : ℕ := if x < lo then lo else if hi < x then hi else x

/-- The interior point adjacent to a boundary point, per
`ASSIGN_VALUES_ON_BOUNDARY_POINTS`: each index clamped to `[1, dims-1-1]`. -/
def clampInterior (nx ny nz : ℕ) (p : GridPoint) : GridPoint :=
  (clampN p.1 1 (nx - 1 - 1), clampN p.2.1 1 (ny - 1 - 1), clampN p.2.2 1 (nz - 1 - 1))

/-- One Neumann boundary write: the boundary sample receives the current value
of its adjacent interior sample. -/
def neumannStep (nx ny nz : ℕ) (s : Grid V3) (p : GridPoint) : Grid V3 :=
  writeG s (flatOffset nx ny p) (s.data (flatOffset nx ny (clampInterior nx ny nz p)))

/-- Boundary points written for the -X face: `index[0] = 0`, `index[2]` over
`[izStart, izEnd)`, `index[1]` from `idxYShift` with stride `iyStep`. -/
def faceXM (ny izStart izEnd : ℕ) (c : GaussSeidelPortionE) : List GridPoint :=
  (countUp izStart izEnd).flatMap fun k =>
    (countUpStep (yShift c k) ny (iyStep c)).map fun j => (0, j, k)

/-- Boundary points written for the -Y face: `index[1] = 0`, all `index[0]`. -/
def faceYM (nx izStart izEnd : ℕ) : List GridPoint :=
  (countUp izStart izEnd).flatMap fun k =>
    (countUp 0 nx).map fun i => (i, 0, k)

/-- Boundary points written for the -Z face (only when the slice contains it,
`0 == izStart`): `index[2] = 0`, `index[1]` from `idxYShift` with stride. -/
def faceZM (nx ny izStart : ℕ) (c : GaussSeidelPortionE) : List GridPoint :=
  if izStart = 0 then
    (countUpStep (yShift c 0) ny (iyStep c)).flatMap fun j =>
      (countUp 0 nx).map fun i => (i, j, 0)
  else []

/-- Boundary points written for the +X face: `index[0] = dims[0]-1`; note the
source starts `index[1]` at 0 (not `idxYShift`) with stride `iyStep`. -/
def faceXP (nx ny izStart izEnd : ℕ) (c : GaussSeidelPortionE) : List GridPoint :=
  (countUp izStart izEnd).flatMap fun k =>
    (countUpStep 0 ny (iyStep c)).map fun j => (nx - 1, j, k)

/-- Boundary points written for the +Y face: `index[1] = dims[1]-1`, all `index[0]`. -/
def faceYP (nx ny izStart izEnd : ℕ) : List GridPoint :=
  (countUp izStart izEnd).flatMap fun k =>
    (countUp 0 nx).map fun i => (i, ny - 1, k)

/-- Boundary points written for the +Z face (only when `izEnd == dims[2]`):
`index[2] = dims[2]-1`, `index[1]` from `idxYShift` with stride. -/
def faceZP (nx ny nz izEnd : ℕ) (c : GaussSeidelPortionE) : List GridPoint :=
  if izEnd = nz then
    (countUpStep (yShift c (nz - 1)) ny (iyStep c)).flatMap fun j =>
      (countUp 0 nx).map fun i => (i, j, nz - 1)
  else []

/-- All boundary points one Neumann pass writes, in source order
(-X, -Y, -Z, +X, +Y, +Z). -/
def neumannPoints (nx ny nz izStart izEnd : ℕ) (c : GaussSeidelPortionE) : List GridPoint :=
  faceXM ny izStart izEnd c ++ faceYM nx izStart izEnd ++ faceZM nx ny izStart c ++
    faceXP nx ny izStart izEnd c ++ faceYP nx ny izStart izEnd ++ faceZP nx ny nz izEnd c

/-- The in-place interior sweep of `StepTowardVectorPoissonSolution`: the SOR
update applied sequentially at each visited interior point. -/
def stepInteriorPass (soln lap : Grid V3) (izStart izEnd : ℕ)
    (redOrBlack : GaussSeidelPortionE) : Grid V3 :=
  (interiorPoints lap.nx lap.ny lap.nz izStart izEnd redOrBlack).foldl
    (fun s q => writeG s (flatOffset lap.nx lap.ny q) (sorValue s lap q)) soln

/-- `StepTowardVectorPoissonSolution`: one red/black (or combined) SOR pass
over the interior of the z-slice `[izStart, izEnd)`, followed — only under
`BC_NEUMANN` — by the boundary-face assignments.  Grid dimensions and spacing
are read from `lap`. -/
def stepTowardVectorPoissonSolution (soln lap : Grid V3) (izStart izEnd : ℕ)
    (redOrBlack : GaussSeidelPortionE) (bc : BoundaryConditionE) : Grid V3 :=
  if bc = BC_NEUMANN then
    (neumannPoints lap.nx lap.ny lap.nz izStart izEnd redOrBlack).foldl
      (fun s q => writeG s (flatOffset lap.nx lap.ny q)
        (s.data (flatOffset lap.nx lap.ny (clampInterior lap.nx lap.ny lap.nz q))))
      (stepInteriorPass soln lap izStart izEnd redOrBlack)
  else stepInteriorPass soln lap izStart izEnd redOrBlack

/-- One iteration of the `SolveVectorPoisson` loop body (serial red-black
technique, the configured `POISSON_TECHNIQUE`): a full-range red pass followed
by a full-range black pass, `numZ = soln.GetNumPoints(2)`. -/
def poissonRound (lap : Grid V3) (bc : BoundaryConditionE) (soln : Grid V3) : Grid V3 :=
  let numZ := soln.nz
  stepTowardVectorPoissonSolution
    (stepTowardVectorPoissonSolution soln lap 0 numZ GS_RED bc) lap 0 numZ GS_BLACK bc

/-- The `for( iter = 0 ; iter < maxIters ; ++iter )` loop of `SolveVectorPoisson`. -/
def solveLoop (lap : Grid V3) (bc : BoundaryConditionE) : ℕ → Grid V3 → Grid V3
  | 0, s => s
  | n + 1, s => solveLoop lap bc n (poissonRound lap bc s)

/-- `SolveVectorPoisson`: `maxIters = numSteps` if positive, else
`numStepsAuto = 2 * MAX3(dims)`; the solution grid is handed to the first
relaxation pass untouched (no zero-initialization). -/
def solveVectorPoisson (soln lap : Grid V3) (numSteps : ℕ) (bc : BoundaryConditionE) :
    Grid V3 :=
  let gridDimMax := max (max soln.nx soln.ny) soln.nz
  let numStepsAuto := 2 * gridDimMax
  let maxIters := if numSteps > 0 then numSteps else numStepsAuto
  solveLoop lap bc maxIters soln

theorem iyStep_red : iyStep GS_RED = 2 := rfl

theorem iyStep_black : iyStep GS_BLACK = 2 := rfl

theorem iyStep_both : iyStep GS_BOTH = 1 := rfl

theorem mem_countUpStep_le_lt {a b m : ℕ} (c : GaussSeidelPortionE)
    (h : m ∈ countUpStep a b (iyStep c)) : a ≤ m ∧ m < b := by
  cases c
  · rw [iyStep_red, countUpStep_two, mem_countUp2] at h
    exact ⟨h.1, h.2.1⟩
  · rw [iyStep_black, countUpStep_two, mem_countUp2] at h
    exact ⟨h.1, h.2.1⟩
  · rw [iyStep_both, countUpStep_one, mem_countUp] at h
    exact h

theorem nodup_countUpStep_iyStep (a b : ℕ) (c : GaussSeidelPortionE) :
    (countUpStep a b (iyStep c)).Nodup := by
  cases c
  · rw [iyStep_red, countUpStep_two]; exact nodup_countUp2 a b
  · rw [iyStep_black, countUpStep_two]; exact nodup_countUp2 a b
  · rw [iyStep_both, countUpStep_one]; exact nodup_countUp a b

theorem mem_interiorPoints {nx ny nz izStart izEnd : ℕ} {c : GaussSeidelPortionE}
    {p : GridPoint} :
    p ∈ interiorPoints nx ny nz izStart izEnd c ↔
      p.1 ∈ countUp 1 (nx - 1) ∧
        p.2.1 ∈ countUpStep (1 + yShift c p.2.2) (ny - 1) (iyStep c) ∧
        p.2.2 ∈ countUp (max 1 izStart) (min (nz - 1) izEnd) := by
  obtain ⟨i, j, k⟩ := p
  unfold interiorPoints
  simp only [List.mem_flatMap, List.mem_map, Prod.mk.injEq]
  constructor
  · rintro ⟨k', hk, j', hj, i', hi, rfl, rfl, rfl⟩
    exact ⟨hi, hj, hk⟩
  · rintro ⟨hi, hj, hk⟩
    exact ⟨k, hk, j, hj, i, hi, rfl, rfl, rfl⟩

/-- Bounds satisfied by every interior point a relaxation pass visits. -/
theorem interiorPoints_bounds {nx ny nz izStart izEnd : ℕ} {c : GaussSeidelPortionE}
    {p : GridPoint} (h : p ∈ interiorPoints nx ny nz izStart izEnd c) :
    1 ≤ p.1 ∧ p.1 < nx - 1 ∧ 1 ≤ p.2.1 ∧ p.2.1 < ny - 1 ∧
      max 1 izStart ≤ p.2.2 ∧ p.2.2 < min (nz - 1) izEnd := by
  rw [mem_interiorPoints] at h
  obtain ⟨hi, hj, hk⟩ := h
  rw [mem_countUp] at hi hk
  have hj' := mem_countUpStep_le_lt _ hj
  exact ⟨hi.1, hi.2, by omega, hj'.2, hk.1, hk.2⟩

/-- A red pass visits exactly the in-slice interior points whose
`(y_index + z_index)` parity is 0. -/
theorem mem_interiorPoints_red {nx ny nz izStart izEnd i j k : ℕ} :
    ((i, j, k) : GridPoint) ∈ interiorPoints nx ny nz izStart izEnd GS_RED ↔
      (1 ≤ i ∧ i < nx - 1) ∧ (1 ≤ j ∧ j < ny - 1) ∧
        (max 1 izStart ≤ k ∧ k < min (nz - 1) izEnd) ∧ (j + k) % 2 = 0 := by
  rw [mem_interiorPoints]
  simp only [iyStep_red, countUpStep_two, mem_countUp, mem_countUp2, yShift, gsValue]
  by_cases hk : k % 2 = 0 <;> simp only [hk, reduceIte, if_true, if_false] <;> omega

/-- A black pass visits exactly the in-slice interior points whose
`(y_index + z_index)` parity is 1. -/
theorem mem_interiorPoints_black {nx ny nz izStart izEnd i j k : ℕ} :
    ((i, j, k) : GridPoint) ∈ interiorPoints nx ny nz izStart izEnd GS_BLACK ↔
      (1 ≤ i ∧ i < nx - 1) ∧ (1 ≤ j ∧ j < ny - 1) ∧
        (max 1 izStart ≤ k ∧ k < min (nz - 1) izEnd) ∧ (j + k) % 2 = 1 := by
  rw [mem_interiorPoints]
  simp only [iyStep_black, countUpStep_two, mem_countUp, mem_countUp2, yShift, gsValue]
  by_cases hk : k % 2 = 1 <;> simp only [hk, reduceIte, if_true, if_false] <;> omega

/-- The interior visit list of one pass repeats no point. -/
theorem nodup_interiorPoints (nx ny nz izStart izEnd : ℕ) (c : GaussSeidelPortionE) :
    (interiorPoints nx ny nz izStart izEnd c).Nodup := by
  unfold interiorPoints
  rw [List.nodup_flatMap]
  constructor
  · intro k _
    rw [List.nodup_flatMap]
    constructor
    · intro j _
      refine (nodup_countUp 1 (nx - 1)).map ?_
      intro i i' h
      exact congrArg Prod.fst h
    · refine (nodup_countUpStep_iyStep _ _ c).imp ?_
      intro j j' hne p hp hp'
      simp only [List.mem_map] at hp hp'
      obtain ⟨i, _, rfl⟩ := hp
      obtain ⟨i', _, h⟩ := hp'
      exact hne (congrArg (fun q : GridPoint => q.2.1) h).symm
  · refine (nodup_countUp _ _).imp ?_
    intro k k' hne p hp hp'
    simp only [List.mem_flatMap, List.mem_map] at hp hp'
    obtain ⟨j, _, i, _, rfl⟩ := hp
    obtain ⟨j', _, i', _, h⟩ := hp'
    exact hne (congrArg (fun q : GridPoint => q.2.2) h).symm

/-- Every point the Neumann boundary section writes lies on one of the six
faces of the domain box, and is in bounds whenever `izEnd ≤ nz` and the grid
is nonempty. -/
theorem neumannPoints_mem {nx ny nz izStart izEnd : ℕ} {c : GaussSeidelPortionE}
    {p : GridPoint} (h : p ∈ neumannPoints nx ny nz izStart izEnd c)
    (hizE : izEnd ≤ nz) (hx : 1 ≤ nx) (hy : 1 ≤ ny) (hz : 1 ≤ nz) :
    inBounds nx ny nz p ∧
      (p.1 = 0 ∨ p.1 = nx - 1 ∨ p.2.1 = 0 ∨ p.2.1 = ny - 1 ∨ p.2.2 = 0 ∨ p.2.2 = nz - 1) := by
  unfold neumannPoints faceXM faceYM faceZM faceXP faceYP faceZP at h
  simp only [List.mem_append] at h
  rcases h with ((((h | h) | h) | h) | h) | h
  · simp only [List.mem_flatMap, List.mem_map] at h
    obtain ⟨k, hk, j, hj, rfl⟩ := h
    rw [mem_countUp] at hk
    have hj' := mem_countUpStep_le_lt _ hj
    refine ⟨⟨?_, ?_, ?_⟩, Or.inl rfl⟩ <;> dsimp only <;> omega
  · simp only [List.mem_flatMap, List.mem_map] at h
    obtain ⟨k, hk, i, hi, rfl⟩ := h
    rw [mem_countUp] at hk hi
    refine ⟨⟨?_, ?_, ?_⟩, Or.inr (Or.inr (Or.inl rfl))⟩ <;> dsimp only <;> omega
  · by_cases hzs : izStart = 0
    · rw [if_pos hzs] at h
      simp only [List.mem_flatMap, List.mem_map] at h
      obtain ⟨j, hj, i, hi, rfl⟩ := h
      rw [mem_countUp] at hi
      have hj' := mem_countUpStep_le_lt _ hj
      refine ⟨⟨?_, ?_, ?_⟩, Or.inr (Or.inr (Or.inr (Or.inr (Or.inl rfl))))⟩ <;>
        dsimp only <;> omega
    · rw [if_neg hzs] at h
      cases h
  · simp only [List.mem_flatMap, List.mem_map] at h
    obtain ⟨k, hk, j, hj, rfl⟩ := h
    rw [mem_countUp] at hk
    have hj' := mem_countUpStep_le_lt _ hj
    refine ⟨⟨?_, ?_, ?_⟩, Or.inr (Or.inl rfl)⟩ <;> dsimp only <;> omega
  · simp only [List.mem_flatMap, List.mem_map] at h
    obtain ⟨k, hk, i, hi, rfl⟩ := h
    rw [mem_countUp] at hk hi
    refine ⟨⟨?_, ?_, ?_⟩, Or.inr (Or.inr (Or.inr (Or.inl rfl)))⟩ <;> dsimp only <;> omega
  · by_cases hze : izEnd = nz
    · rw [if_pos hze] at h
      simp only [List.mem_flatMap, List.mem_map] at h
      obtain ⟨j, hj, i, hi, rfl⟩ := h
      rw [mem_countUp] at hi
      have hj' := mem_countUpStep_le_lt _ hj
      refine ⟨⟨?_, ?_, ?_⟩, Or.inr (Or.inr (Or.inr (Or.inr (Or.inr rfl))))⟩ <;>
        dsimp only <;> omega
    · rw [if_neg hze] at h
      cases h

/-- The interior sweep leaves every in-bounds point it does not visit
unchanged. -/
theorem stepInteriorPass_unchanged (soln lap : Grid V3) (izStart izEnd : ℕ)
    (c : GaussSeidelPortionE) (p : GridPoint)
    (hpin : inBounds lap.nx lap.ny lap.nz p)
    (h1 : p ∉ interiorPoints lap.nx lap.ny lap.nz izStart izEnd c) :
    (stepInteriorPass soln lap izStart izEnd c).data (flatOffset lap.nx lap.ny p)
      = soln.data (flatOffset lap.nx lap.ny p) := by
  apply foldl_write_frame
  intro q hq hqe
  have hb := interiorPoints_bounds hq
  have hqp : q = p :=
    flatOffset_inj _ _ (by omega) (by omega) hpin.1 hpin.2.1 hqe
  exact h1 (hqp ▸ hq)

/-- One relaxation pass leaves every in-bounds point unchanged that it neither
visits in the interior sweep nor (under Neumann) writes on the boundary. -/
theorem step_unchanged (soln lap : Grid V3) (izStart izEnd : ℕ)
    (c : GaussSeidelPortionE) (bc : BoundaryConditionE) (p : GridPoint)
    (hpin : inBounds lap.nx lap.ny lap.nz p)
    (h1 : p ∉ interiorPoints lap.nx lap.ny lap.nz izStart izEnd c)
    (h2 : bc = BC_NEUMANN → izEnd ≤ lap.nz ∧
      p ∉ neumannPoints lap.nx lap.ny lap.nz izStart izEnd c) :
    (stepTowardVectorPoissonSolution soln lap izStart izEnd c bc).data
        (flatOffset lap.nx lap.ny p)
      = soln.data (flatOffset lap.nx lap.ny p) := by
  unfold stepTowardVectorPoissonSolution
  by_cases hbc : bc = BC_NEUMANN
  · rw [if_pos hbc]
    obtain ⟨hizE, hnb⟩ := h2 hbc
    rw [foldl_write_frame lap.nx lap.ny
      (fun s q => s.data (flatOffset lap.nx lap.ny (clampInterior lap.nx lap.ny lap.nz q))) _ _ _
      ?_]
    · exact stepInteriorPass_unchanged soln lap izStart izEnd c p hpin h1
    · intro q hq hqe
      have hb := (neumannPoints_mem hq hizE
        (lt_of_le_of_lt (Nat.zero_le _) hpin.1)
        (lt_of_le_of_lt (Nat.zero_le _) hpin.2.1)
        (lt_of_le_of_lt (Nat.zero_le _) hpin.2.2)).1
      have hqp : q = p :=
        flatOffset_inj _ _ hb.1 hb.2.1 hpin.1 hpin.2.1 hqe
      exact hnb (hqp ▸ hq)
  · rw [if_neg hbc]
    exact stepInteriorPass_unchanged soln lap izStart izEnd c p hpin h1

/-- A duplicate-free list counts each of its members exactly once. -/
theorem count_eq_one_of_nodup_mem {α : Type} [BEq α] [LawfulBEq α] {l : List α} {a : α}
    (hnd : l.Nodup) (h : a ∈ l) : l.count a = 1 := by
  induction l with
  | nil => cases h
  | cons b rest ih =>
    rw [List.count_cons]
    rcases List.mem_cons.mp h with hab | ha
    · subst hab
      rw [List.count_eq_zero.mpr (List.nodup_cons.mp hnd).1, if_pos (beq_self_eq_true a)]
    · have hne : (b == a) ≠ true := by
        intro hb
        exact (List.nodup_cons.mp hnd).1 ((eq_of_beq hb) ▸ ha)
      rw [ih (List.nodup_cons.mp hnd).2 ha, if_neg hne]

/-- Interior points never lie in the Neumann boundary write set. -/
theorem interior_not_mem_neumannPoints {nx ny nz izStart izEnd : ℕ}
    {c : GaussSeidelPortionE} {p : GridPoint} (hizE : izEnd ≤ nz)
    (hi : 1 ≤ p.1 ∧ p.1 < nx - 1) (hj : 1 ≤ p.2.1 ∧ p.2.1 < ny - 1)
    (hk : 1 ≤ p.2.2 ∧ p.2.2 < nz - 1) :
    p ∉ neumannPoints nx ny nz izStart izEnd c := by
  intro hmem
  have hb := neumannPoints_mem hmem hizE (by omega) (by omega) (by omega)
  rcases hb.2 with h | h | h | h | h | h <;> omega

/-- C3: a relaxation pass with color Red visits (in its interior sweep)
exactly the in-slice interior points of `(y+z)` parity 0, a Black pass exactly
those of parity 1; a pass leaves interior points of the other parity
bit-for-bit unchanged; and across one Red plus one Black pass over the same
range, each in-slice interior point is visited exactly once. -/
theorem c3_red_black_partition (soln lap : Grid V3) (izStart izEnd : ℕ)
    (bc : BoundaryConditionE) (i j k : ℕ)
    (hi : 1 ≤ i ∧ i < lap.nx - 1) (hj : 1 ≤ j ∧ j < lap.ny - 1)
    (hk : 1 ≤ k ∧ k < lap.nz - 1 ∧ izStart ≤ k ∧ k < izEnd) (hizE : izEnd ≤ lap.nz) :
    (((i, j, k) : GridPoint) ∈
        interiorPoints lap.nx lap.ny lap.nz izStart izEnd GS_RED ↔ (j + k) % 2 = 0) ∧
    (((i, j, k) : GridPoint) ∈
        interiorPoints lap.nx lap.ny lap.nz izStart izEnd GS_BLACK ↔ (j + k) % 2 = 1) ∧
    List.count ((i, j, k) : GridPoint)
        (interiorPoints lap.nx lap.ny lap.nz izStart izEnd GS_RED ++
          interiorPoints lap.nx lap.ny lap.nz izStart izEnd GS_BLACK) = 1 ∧
    ((j + k) % 2 = 1 →
      (stepTowardVectorPoissonSolution soln lap izStart izEnd GS_RED bc).data
          (flatOffset lap.nx lap.ny (i, j, k))
        = soln.data (flatOffset lap.nx lap.ny (i, j, k))) ∧
    ((j + k) % 2 = 0 →
      (stepTowardVectorPoissonSolution soln lap izStart izEnd GS_BLACK bc).data
          (flatOffset lap.nx lap.ny (i, j, k))
        = soln.data (flatOffset lap.nx lap.ny (i, j, k))) := by
  have hred : ((i, j, k) : GridPoint) ∈
      interiorPoints lap.nx lap.ny lap.nz izStart izEnd GS_RED ↔ (j + k) % 2 = 0 := by
    rw [mem_interiorPoints_red]
    constructor
    · exact fun h => h.2.2.2
    · exact fun h => ⟨hi, hj, ⟨by omega, by omega⟩, h⟩
  have hblack : ((i, j, k) : GridPoint) ∈
      interiorPoints lap.nx lap.ny lap.nz izStart izEnd GS_BLACK ↔ (j + k) % 2 = 1 := by
    rw [mem_interiorPoints_black]
    constructor
    · exact fun h => h.2.2.2
    · exact fun h => ⟨hi, hj, ⟨by omega, by omega⟩, h⟩
  have hpin : inBounds lap.nx lap.ny lap.nz ((i, j, k) : GridPoint) := by
    refine ⟨?_, ?_, ?_⟩ <;> dsimp only <;> omega
  refine ⟨hred, hblack, ?_, ?_, ?_⟩
  · rw [List.count_append]
    rcases Nat.mod_two_eq_zero_or_one (j + k) with hpar | hpar
    · rw [count_eq_one_of_nodup_mem (nodup_interiorPoints _ _ _ _ _ _) (hred.mpr hpar),
        List.count_eq_zero.mpr (fun hmem => absurd (hblack.mp hmem) (by omega))]
    · rw [count_eq_one_of_nodup_mem (nodup_interiorPoints _ _ _ _ _ _) (hblack.mpr hpar),
        List.count_eq_zero.mpr (fun hmem => absurd (hred.mp hmem) (by omega))]
  · intro hpar
    refine step_unchanged _ _ _ _ _ _ _ hpin ?_ ?_
    · intro hmem
      exact absurd (hred.mp hmem) (by omega)
    · intro _
      exact ⟨hizE, interior_not_mem_neumannPoints hizE hi hj ⟨hk.1, hk.2.1⟩⟩
  · intro hpar
    refine step_unchanged _ _ _ _ _ _ _ hpin ?_ ?_
    · intro hmem
      exact absurd (hblack.mp hmem) (by omega)
    · intro _
      exact ⟨hizE, interior_not_mem_neumannPoints hizE hi hj ⟨hk.1, hk.2.1⟩⟩

/-- A concrete 3x3x3 solution grid (all zeroes, unit spacing) for witnesses. -/
def solnW : Grid V3 := ⟨3, 3, 3, ⟨1, 1, 1⟩, fun _ => 0⟩

/-- A concrete 3x3x3 Laplacian (source) grid for witnesses. -/
def lapW : Grid V3 := ⟨3, 3, 3, ⟨1, 1, 1⟩, fun _ => ⟨1, 0, 0⟩⟩

/-- Witness for C3 at the 3x3x3 grid's center point. -/
theorem c3_red_black_partition_witness :
    ((1 ≤ 1 ∧ 1 < lapW.nx - 1) ∧ (1 ≤ 1 ∧ 1 < lapW.ny - 1) ∧
      (1 ≤ 1 ∧ 1 < lapW.nz - 1 ∧ 0 ≤ 1 ∧ 1 < 3) ∧ 3 ≤ lapW.nz) ∧
    ((((1, 1, 1) : GridPoint) ∈
        interiorPoints lapW.nx lapW.ny lapW.nz 0 3 GS_RED ↔ (1 + 1) % 2 = 0) ∧
      (((1, 1, 1) : GridPoint) ∈
        interiorPoints lapW.nx lapW.ny lapW.nz 0 3 GS_BLACK ↔ (1 + 1) % 2 = 1) ∧
      List.count ((1, 1, 1) : GridPoint)
        (interiorPoints lapW.nx lapW.ny lapW.nz 0 3 GS_RED ++
          interiorPoints lapW.nx lapW.ny lapW.nz 0 3 GS_BLACK) = 1 ∧
      ((1 + 1) % 2 = 1 →
        (stepTowardVectorPoissonSolution solnW lapW 0 3 GS_RED BC_NEUMANN).data
            (flatOffset lapW.nx lapW.ny (1, 1, 1))
          = solnW.data (flatOffset lapW.nx lapW.ny (1, 1, 1))) ∧
      ((1 + 1) % 2 = 0 →
        (stepTowardVectorPoissonSolution solnW lapW 0 3 GS_BLACK BC_NEUMANN).data
            (flatOffset lapW.nx lapW.ny (1, 1, 1))
          = solnW.data (flatOffset lapW.nx lapW.ny (1, 1, 1)))) :=
  ⟨⟨⟨by decide, by decide⟩, ⟨by decide, by decide⟩, ⟨by decide, by decide, by decide, by decide⟩,
      by decide⟩,
    c3_red_black_partition solnW lapW 0 3 BC_NEUMANN 1 1 1
      ⟨by decide, by decide⟩ ⟨by decide, by decide⟩
      ⟨by decide, by decide, by decide, by decide⟩ (by decide)⟩

/-- Boundary points are never visited by any interior sweep. -/
theorem boundary_not_mem_interiorPoints {nx ny nz izStart izEnd : ℕ}
    {c : GaussSeidelPortionE} {p : GridPoint}
    (hbd : p.1 = 0 ∨ p.1 = nx - 1 ∨ p.2.1 = 0 ∨ p.2.1 = ny - 1 ∨
      p.2.2 = 0 ∨ p.2.2 = nz - 1) :
    p ∉ interiorPoints nx ny nz izStart izEnd c := by
  intro hmem
  have hb := interiorPoints_bounds hmem
  rcases hbd with h | h | h | h | h | h <;> omega

/-- A single Dirichlet relaxation pass never writes a boundary sample. -/
theorem step_dirichlet_boundary_unchanged (soln lap : Grid V3) (izStart izEnd : ℕ)
    (c : GaussSeidelPortionE) (p : GridPoint)
    (hpin : inBounds lap.nx lap.ny lap.nz p)
    (hbd : p.1 = 0 ∨ p.1 = lap.nx - 1 ∨ p.2.1 = 0 ∨ p.2.1 = lap.ny - 1 ∨
      p.2.2 = 0 ∨ p.2.2 = lap.nz - 1) :
    (stepTowardVectorPoissonSolution soln lap izStart izEnd c BC_DIRICHLET).data
        (flatOffset lap.nx lap.ny p)
      = soln.data (flatOffset lap.nx lap.ny p) :=
  step_unchanged soln lap izStart izEnd c BC_DIRICHLET p hpin
    (boundary_not_mem_interiorPoints hbd) (fun h => by cases h)

/-- The solver loop with Dirichlet boundaries never writes a boundary sample. -/
theorem solveLoop_dirichlet_boundary_unchanged (lap : Grid V3) (p : GridPoint)
    (hpin : inBounds lap.nx lap.ny lap.nz p)
    (hbd : p.1 = 0 ∨ p.1 = lap.nx - 1 ∨ p.2.1 = 0 ∨ p.2.1 = lap.ny - 1 ∨
      p.2.2 = 0 ∨ p.2.2 = lap.nz - 1) :
    ∀ (n : ℕ) (s : Grid V3),
      (solveLoop lap BC_DIRICHLET n s).data (flatOffset lap.nx lap.ny p)
        = s.data (flatOffset lap.nx lap.ny p) := by
  intro n
  induction n with
  | zero => intro s; rfl
  | succ m ih =>
    intro s
    show (solveLoop lap BC_DIRICHLET m (poissonRound lap BC_DIRICHLET s)).data _ = _
    rw [ih (poissonRound lap BC_DIRICHLET s)]
    unfold poissonRound
    rw [step_dirichlet_boundary_unchanged _ lap _ _ _ p hpin hbd,
      step_dirichlet_boundary_unchanged _ lap _ _ _ p hpin hbd]

/-- C8: under Dirichlet boundary conditions neither a single relaxation pass
(any slice, any color) nor a full `SolveVectorPoisson` run writes any
boundary-face sample: each keeps the caller's value there exactly. -/
theorem c8_dirichlet_boundary_untouched (soln lap : Grid V3) (izStart izEnd numSteps : ℕ)
    (c : GaussSeidelPortionE) (p : GridPoint)
    (hpin : inBounds lap.nx lap.ny lap.nz p)
    (hbd : p.1 = 0 ∨ p.1 = lap.nx - 1 ∨ p.2.1 = 0 ∨ p.2.1 = lap.ny - 1 ∨
      p.2.2 = 0 ∨ p.2.2 = lap.nz - 1) :
    (stepTowardVectorPoissonSolution soln lap izStart izEnd c BC_DIRICHLET).data
        (flatOffset lap.nx lap.ny p)
      = soln.data (flatOffset lap.nx lap.ny p) ∧
    (solveVectorPoisson soln lap numSteps BC_DIRICHLET).data (flatOffset lap.nx lap.ny p)
      = soln.data (flatOffset lap.nx lap.ny p) := by
  refine ⟨step_dirichlet_boundary_unchanged soln lap izStart izEnd c p hpin hbd, ?_⟩
  unfold solveVectorPoisson
  exact solveLoop_dirichlet_boundary_unchanged lap p hpin hbd _ soln

/-- Witness for C8 at a -X-face point of the 3x3x3 grid. -/
theorem c8_dirichlet_boundary_untouched_witness :
    inBounds lapW.nx lapW.ny lapW.nz ((0, 1, 1) : GridPoint) ∧
    (((0, 1, 1) : GridPoint).1 = 0 ∨ ((0, 1, 1) : GridPoint).1 = lapW.nx - 1 ∨
      ((0, 1, 1) : GridPoint).2.1 = 0 ∨ ((0, 1, 1) : GridPoint).2.1 = lapW.ny - 1 ∨
      ((0, 1, 1) : GridPoint).2.2 = 0 ∨ ((0, 1, 1) : GridPoint).2.2 = lapW.nz - 1) ∧
    ((stepTowardVectorPoissonSolution solnW lapW 0 3 GS_RED BC_DIRICHLET).data
        (flatOffset lapW.nx lapW.ny (0, 1, 1))
      = solnW.data (flatOffset lapW.nx lapW.ny (0, 1, 1)) ∧
    (solveVectorPoisson solnW lapW 2 BC_DIRICHLET).data (flatOffset lapW.nx lapW.ny (0, 1, 1))
      = solnW.data (flatOffset lapW.nx lapW.ny (0, 1, 1))) :=
  ⟨by decide, by decide,
    c8_dirichlet_boundary_untouched solnW lapW 0 3 2 GS_RED (0, 1, 1) (by decide) (by decide)⟩

/-- C4 (iteration-count helper): the solver loop is exactly `n`-fold iteration
of one red-then-black round. -/
theorem solveLoop_eq_iterate (lap : Grid V3) (bc : BoundaryConditionE) :
    ∀ (n : ℕ) (s : Grid V3), solveLoop lap bc n s = (poissonRound lap bc)^[n] s := by
  intro n
  induction n with
  | zero => intro s; rfl
  | succ m ih =>
    intro s
    show solveLoop lap bc m (poissonRound lap bc s) = _
    rw [ih, Function.iterate_succ_apply]

/-- C4: `SolveVectorPoisson` performs exactly `numSteps` red+black rounds when
`numSteps > 0` and exactly `2 * MAX3(dims)` rounds when `numSteps = 0`; the
round function is applied by iteration to the caller's solution grid as-is
(no early exit, no zero-initialization before the first pass). -/
theorem c4_solver_iteration_count (soln lap : Grid V3) (numSteps : ℕ)
    (bc : BoundaryConditionE) :
    (0 < numSteps →
      solveVectorPoisson soln lap numSteps bc = (poissonRound lap bc)^[numSteps] soln) ∧
    (numSteps = 0 →
      solveVectorPoisson soln lap numSteps bc
        = (poissonRound lap bc)^[2 * max (max soln.nx soln.ny) soln.nz] soln) := by
  constructor
  · intro h
    show solveLoop lap bc
      (if numSteps > 0 then numSteps else 2 * max (max soln.nx soln.ny) soln.nz) soln = _
    rw [if_pos h]
    exact solveLoop_eq_iterate lap bc numSteps soln
  · intro h
    subst h
    show solveLoop lap bc
      (if 0 > 0 then 0 else 2 * max (max soln.nx soln.ny) soln.nz) soln = _
    rw [if_neg (by omega)]
    exact solveLoop_eq_iterate lap bc _ soln

/-- Witness for C4 with an explicit one-step budget. -/
theorem c4_solver_iteration_count_witness :
    0 < 1 ∧
      solveVectorPoisson solnW lapW 1 BC_DIRICHLET
        = (poissonRound lapW BC_DIRICHLET)^[1] solnW :=
  ⟨by decide, (c4_solver_iteration_count solnW lapW 1 BC_DIRICHLET).1 (by decide)⟩

/-- The interior update value exactly as the claim words it:
`new = (1−ω)·old + ω · HalfSpacing2Sum · (Σ_axis (soln[+1]+soln[-1])/spacing[a]² − source[point])`
with `HalfSpacing2Sum = 0.5 / Σ_axis(1/spacing[a]²)` and `ω = relax`.  This is
the refinement target the code's `sorValue` is compared against. -/
def claimSorUpdate (s lap : Grid V3) (p : GridPoint) : V3 :=
  let sp := lap.spacing
  let halfSpacing2SumSpec : ℚ := (1 / 2) / (1 / sp.x ^ 2 + 1 / sp.y ^ 2 + 1 / sp.z ^ 2)
  let o := flatOffset lap.nx lap.ny p
  (1 - relax) • s.data o + relax • (halfSpacing2SumSpec •
    ((1 / sp.x ^ 2) • (s.data (flatOffset lap.nx lap.ny (p.1 + 1, p.2.1, p.2.2))
        + s.data (flatOffset lap.nx lap.ny (p.1 - 1, p.2.1, p.2.2)))
      + (1 / sp.y ^ 2) • (s.data (flatOffset lap.nx lap.ny (p.1, p.2.1 + 1, p.2.2))
        + s.data (flatOffset lap.nx lap.ny (p.1, p.2.1 - 1, p.2.2)))
      + (1 / sp.z ^ 2) • (s.data (flatOffset lap.nx lap.ny (p.1, p.2.1, p.2.2 + 1))
        + s.data (flatOffset lap.nx lap.ny (p.1, p.2.1, p.2.2 - 1)))
      - lap.data o))

theorem V3.eq_of_fields {a b : V3} (hx : a.x = b.x) (hy : a.y = b.y) (hz : a.z = b.z) :
    a = b := by
  cases a; cases b
  cases hx; cases hy; cases hz
  rfl

/-- When the z spacing exceeds `FLT_EPSILON` (so the reciprocal guard is
inactive), the code's SOR update value equals the claim's formula. -/
theorem sorValue_eq_claimSorUpdate (s lap : Grid V3) (p : GridPoint)
    (hsz : FLT_EPSILON < lap.spacing.z) :
    sorValue s lap p = claimSorUpdate s lap p := by
  apply V3.eq_of_fields <;>
    simp only [sorValue, claimSorUpdate, reciprocalSpacing, if_pos hsz, V3.add_x, V3.add_y,
      V3.add_z, V3.sub_x, V3.sub_y, V3.sub_z, V3.smul_x, V3.smul_y, V3.smul_z] <;>
    ring

/-- C1: at every interior point a relaxation pass updates, the value written
is `(1−ω)·old + ω·HalfSpacing2Sum·(Σ_axis (soln[+1]+soln[-1])/spacing[a]² − source[point])`
with `HalfSpacing2Sum = 0.5/Σ_axis(1/spacing[a]²)`, evaluated on the
Gauss-Seidel in-place state reached just before that point's own update, and
the relaxation factor is 1.72, which lies in [1, 2). -/
theorem c1_interior_sor_update (soln lap : Grid V3) (izStart izEnd : ℕ)
    (c : GaussSeidelPortionE) (bc : BoundaryConditionE) (p : GridPoint)
    (hp : p ∈ interiorPoints lap.nx lap.ny lap.nz izStart izEnd c)
    (hizE : izEnd ≤ lap.nz) (hsz : FLT_EPSILON < lap.spacing.z) :
    relax = 1.72 ∧ 1 ≤ relax ∧ relax < 2 ∧
    ∃ l₁ l₂, interiorPoints lap.nx lap.ny lap.nz izStart izEnd c = l₁ ++ p :: l₂ ∧
      (stepTowardVectorPoissonSolution soln lap izStart izEnd c bc).data
          (flatOffset lap.nx lap.ny p)
        = claimSorUpdate
            (l₁.foldl (fun s q => writeG s (flatOffset lap.nx lap.ny q) (sorValue s lap q))
              soln)
            lap p := by
  have hb := interiorPoints_bounds hp
  have hpin : inBounds lap.nx lap.ny lap.nz p := ⟨by omega, by omega, by omega⟩
  have hinj : ∀ q ∈ interiorPoints lap.nx lap.ny lap.nz izStart izEnd c,
      q ≠ p → flatOffset lap.nx lap.ny q ≠ flatOffset lap.nx lap.ny p := by
    intro q hq hqp hqe
    have hqb := interiorPoints_bounds hq
    exact hqp (flatOffset_inj _ _ (by omega) (by omega) hpin.1 hpin.2.1 hqe)
  obtain ⟨l₁, l₂, hsplit, hval⟩ := foldl_write_mem_split lap.nx lap.ny
    (fun s q => sorValue s lap q) (interiorPoints lap.nx lap.ny lap.nz izStart izEnd c)
    soln p hp (nodup_interiorPoints _ _ _ _ _ _) hinj
  refine ⟨rfl, by norm_num [relax], by norm_num [relax], l₁, l₂, hsplit, ?_⟩
  have hstep : (stepTowardVectorPoissonSolution soln lap izStart izEnd c bc).data
      (flatOffset lap.nx lap.ny p)
      = (stepInteriorPass soln lap izStart izEnd c).data (flatOffset lap.nx lap.ny p) := by
    unfold stepTowardVectorPoissonSolution
    by_cases hbc : bc = BC_NEUMANN
    · rw [if_pos hbc]
      apply foldl_write_frame
      intro q hq hqe
      have hqb := (neumannPoints_mem hq hizE (by omega) (by omega) (by omega)).1
      have hqp : q = p := flatOffset_inj _ _ hqb.1 hqb.2.1 hpin.1 hpin.2.1 hqe
      exact interior_not_mem_neumannPoints hizE ⟨hb.1, hb.2.1⟩ ⟨hb.2.2.1, hb.2.2.2.1⟩
        ⟨by omega, by omega⟩ (hqp ▸ hq)
    · rw [if_neg hbc]
  rw [hstep]
  unfold stepInteriorPass
  rw [hval]
  exact sorValue_eq_claimSorUpdate _ lap p hsz

/-- Witness for C1 at the 3x3x3 grid's center point under a red pass. -/
theorem c1_interior_sor_update_witness :
    (((1, 1, 1) : GridPoint) ∈ interiorPoints lapW.nx lapW.ny lapW.nz 0 3 GS_RED ∧
      3 ≤ lapW.nz ∧ FLT_EPSILON < lapW.spacing.z) ∧
    (relax = 1.72 ∧ 1 ≤ relax ∧ relax < 2 ∧
      ∃ l₁ l₂, interiorPoints lapW.nx lapW.ny lapW.nz 0 3 GS_RED = l₁ ++ (1, 1, 1) :: l₂ ∧
        (stepTowardVectorPoissonSolution solnW lapW 0 3 GS_RED BC_NEUMANN).data
            (flatOffset lapW.nx lapW.ny (1, 1, 1))
          = claimSorUpdate
              (l₁.foldl
                (fun s q => writeG s (flatOffset lapW.nx lapW.ny q) (sorValue s lapW q))
                solnW)
              lapW (1, 1, 1)) :=
  ⟨⟨by decide, by decide, by with_unfolding_all decide⟩,
    c1_interior_sor_update solnW lapW 0 3 GS_RED BC_NEUMANN (1, 1, 1)
      (by decide) (by decide) (by with_unfolding_all decide)⟩

/-- C2 (failing evaluation): after one complete Neumann relaxation round
(red pass then black pass over the full z-range, exactly as the
`SolveVectorPoisson` loop performs) on the 3x3x3 grid with zero initial
solution and constant source `(1,0,0)`, the +X-face boundary sample at
`(2,1,1)` still holds its initial value `0` — the red-black boundary loops
never write the odd-y rows of the +X face — while its adjacent interior
sample `(1,1,1)` was relaxed to `(-43/150, 0, 0)`, so the two are not equal. -/
theorem c2_neumann_boundary_mismatch :
    (poissonRound lapW BC_NEUMANN solnW).data (flatOffset lapW.nx lapW.ny (2, 1, 1)) = 0 ∧
    (poissonRound lapW BC_NEUMANN solnW).data (flatOffset lapW.nx lapW.ny (1, 1, 1))
      = ⟨-43 / 150, 0, 0⟩ ∧
    (poissonRound lapW BC_NEUMANN solnW).data (flatOffset lapW.nx lapW.ny (2, 1, 1))
      ≠ (poissonRound lapW BC_NEUMANN solnW).data (flatOffset lapW.nx lapW.ny (1, 1, 1)) := by
  refine ⟨?_, ?_, ?_⟩ <;> with_unfolding_all decide

/-- The centered-difference gradient value of `ComputeGradientInteriorSlice`:
`gradient.a = ( val[aP] - val[aM] ) * halfReciprocalSpacing.a` for each axis. -/
def gradCentered (sv : Grid ℚ) (p : GridPoint) : V3 :=
  let nx := sv.nx
  let ny := sv.ny
  let h := halfReciprocalSpacing sv.spacing
  ⟨(sv.data (flatOffset nx ny (p.1 + 1, p.2.1, p.2.2))
      - sv.data (flatOffset nx ny (p.1 - 1, p.2.1, p.2.2))) * h.x,
   (sv.data (flatOffset nx ny (p.1, p.2.1 + 1, p.2.2))
      - sv.data (flatOffset nx ny (p.1, p.2.1 - 1, p.2.2))) * h.y,
   (sv.data (flatOffset nx ny (p.1, p.2.1, p.2.2 + 1))
      - sv.data (flatOffset nx ny (p.1, p.2.1, p.2.2 - 1))) * h.z⟩

/-- The per-point gradient value of `ComputeGradient`'s boundary macro
`COMPUTE_FINITE_PARTIAL_DIFFERENTIALS_AT_BOUNDARIES`: per axis, a one-sided
difference at index 0 or `dims-1` and a centered difference otherwise. -/
def gradStencil (sv : Grid ℚ) (p : GridPoint) : V3 :=
  let nx := sv.nx
  let ny := sv.ny
  let nz := sv.nz
  let r := reciprocalSpacing sv.spacing
  let h := halfReciprocalSpacing sv.spacing
  ⟨if p.1 = 0 then
      (sv.data (flatOffset nx ny (p.1 + 1, p.2.1, p.2.2)) - sv.data (flatOffset nx ny p)) * r.x
    else if p.1 = nx - 1 then
      (sv.data (flatOffset nx ny p) - sv.data (flatOffset nx ny (p.1 - 1, p.2.1, p.2.2))) * r.x
    else
      (sv.data (flatOffset nx ny (p.1 + 1, p.2.1, p.2.2))
        - sv.data (flatOffset nx ny (p.1 - 1, p.2.1, p.2.2))) * h.x,
   if p.2.1 = 0 then
      (sv.data (flatOffset nx ny (p.1, p.2.1 + 1, p.2.2)) - sv.data (flatOffset nx ny p)) * r.y
    else if p.2.1 = ny - 1 then
      (sv.data (flatOffset nx ny p) - sv.data (flatOffset nx ny (p.1, p.2.1 - 1, p.2.2))) * r.y
    else
      (sv.data (flatOffset nx ny (p.1, p.2.1 + 1, p.2.2))
        - sv.data (flatOffset nx ny (p.1, p.2.1 - 1, p.2.2))) * h.y,
   if p.2.2 = 0 then
      (sv.data (flatOffset nx ny (p.1, p.2.1, p.2.2 + 1)) - sv.data (flatOffset nx ny p)) * r.z
    else if p.2.2 = nz - 1 then
      (sv.data (flatOffset nx ny p) - sv.data (flatOffset nx ny (p.1, p.2.1, p.2.2 - 1))) * r.z
    else
      (sv.data (flatOffset nx ny (p.1, p.2.1, p.2.2 + 1))
        - sv.data (flatOffset nx ny (p.1, p.2.1, p.2.2 - 1))) * h.z⟩

/-- Points visited by `ComputeGradientInteriorSlice` over `[izStart, izEnd)`:
`index[1]` in `[1, dims[1]-1)` and `index[0]` in `[1, dims[0]-1)`. -/
def gradInteriorPoints (nx ny izStart izEnd : ℕ) : List GridPoint :=
  (countUp izStart izEnd).flatMap fun k =>
    (countUp 1 (ny - 1)).flatMap fun j =>
      (countUp 1 (nx - 1)).map fun i => (i, j, k)

/-- The six boundary-face loops of `ComputeGradient`, in source order
(-X, -Y, -Z, +X, +Y, +Z), each covering the full ranges of the other axes. -/
def gradBoundaryPoints (nx ny nz : ℕ) : List GridPoint :=
  ((countUp 0 nz).flatMap fun k => (countUp 0 ny).map fun j => (0, j, k)) ++
  ((countUp 0 nz).flatMap fun k => (countUp 0 nx).map fun i => (i, 0, k)) ++
  ((countUp 0 ny).flatMap fun j => (countUp 0 nx).map fun i => (i, j, 0)) ++
  ((countUp 0 nz).flatMap fun k => (countUp 0 ny).map fun j => (nx - 1, j, k)) ++
  ((countUp 0 nz).flatMap fun k => (countUp 0 nx).map fun i => (i, ny - 1, k)) ++
  ((countUp 0 ny).flatMap fun j => (countUp 0 nx).map fun i => (i, j, nz - 1))

/-- `ComputeGradientInteriorSlice`: centered differences over the interior of
the given z-slice.  Dimensions and spacing are read from the scalar grid. -/
def computeGradientInteriorSlice (gout : Grid V3) (sv : Grid ℚ) (izStart izEnd : ℕ) :
    Grid V3 :=
  (gradInteriorPoints sv.nx sv.ny izStart izEnd).foldl
    (fun s q => writeG s (flatOffset sv.nx sv.ny q) (gradCentered sv q)) gout

/-- `ComputeGradient` (serial path): the interior slice `[1, dims[2]-1)`
followed by the six boundary-face loops. -/
def computeGradient (gout : Grid V3) (sv : Grid ℚ) : Grid V3 :=
  (gradBoundaryPoints sv.nx sv.ny sv.nz).foldl
    (fun s q => writeG s (flatOffset sv.nx sv.ny q) (gradStencil sv q))
    (computeGradientInteriorSlice gout sv 1 (sv.nz - 1))

theorem mem_gradInteriorPoints {nx ny izStart izEnd : ℕ} {p : GridPoint} :
    p ∈ gradInteriorPoints nx ny izStart izEnd ↔
      1 ≤ p.1 ∧ p.1 < nx - 1 ∧ 1 ≤ p.2.1 ∧ p.2.1 < ny - 1 ∧
        izStart ≤ p.2.2 ∧ p.2.2 < izEnd := by
  obtain ⟨i, j, k⟩ := p
  unfold gradInteriorPoints
  simp only [List.mem_flatMap, List.mem_map, Prod.mk.injEq]
  constructor
  · rintro ⟨k', hk, j', hj, i', hi, rfl, rfl, rfl⟩
    rw [mem_countUp] at hk hj hi
    exact ⟨hi.1, hi.2, hj.1, hj.2, hk.1, hk.2⟩
  · rintro ⟨hi1, hi2, hj1, hj2, hk1, hk2⟩
    exact ⟨k, mem_countUp.mpr ⟨hk1, hk2⟩, j, mem_countUp.mpr ⟨hj1, hj2⟩,
      i, mem_countUp.mpr ⟨hi1, hi2⟩, rfl, rfl, rfl⟩

/-- Every point the boundary loops of `ComputeGradient` visit is in bounds
(for a nonempty grid) and lies on one of the six faces. -/
theorem gradBoundaryPoints_mem {nx ny nz : ℕ} {p : GridPoint}
    (h : p ∈ gradBoundaryPoints nx ny nz) (hx : 1 ≤ nx) (hy : 1 ≤ ny) (hz : 1 ≤ nz) :
    inBounds nx ny nz p ∧
      (p.1 = 0 ∨ p.1 = nx - 1 ∨ p.2.1 = 0 ∨ p.2.1 = ny - 1 ∨
        p.2.2 = 0 ∨ p.2.2 = nz - 1) := by
  unfold gradBoundaryPoints at h
  simp only [List.mem_append, List.mem_flatMap, List.mem_map] at h
  rcases h with ((((h | h) | h) | h) | h) | h
  · obtain ⟨k, hk, j, hj, rfl⟩ := h
    rw [mem_countUp] at hk hj
    exact ⟨⟨hx, hj.2, hk.2⟩, Or.inl rfl⟩
  · obtain ⟨k, hk, i, hi, rfl⟩ := h
    rw [mem_countUp] at hk hi
    exact ⟨⟨hi.2, hy, hk.2⟩, Or.inr (Or.inr (Or.inl rfl))⟩
  · obtain ⟨j, hj, i, hi, rfl⟩ := h
    rw [mem_countUp] at hj hi
    exact ⟨⟨hi.2, hj.2, hz⟩, Or.inr (Or.inr (Or.inr (Or.inr (Or.inl rfl))))⟩
  · obtain ⟨k, hk, j, hj, rfl⟩ := h
    rw [mem_countUp] at hk hj
    refine ⟨⟨?_, hj.2, hk.2⟩, Or.inr (Or.inl rfl)⟩
    dsimp only
    omega
  · obtain ⟨k, hk, i, hi, rfl⟩ := h
    rw [mem_countUp] at hk hi
    refine ⟨⟨hi.2, ?_, hk.2⟩, Or.inr (Or.inr (Or.inr (Or.inl rfl)))⟩
    dsimp only
    omega
  · obtain ⟨j, hj, i, hi, rfl⟩ := h
    rw [mem_countUp] at hj hi
    refine ⟨⟨hi.2, hj.2, ?_⟩, Or.inr (Or.inr (Or.inr (Or.inr (Or.inr rfl))))⟩
    dsimp only
    omega

/-- Every in-bounds point on some face is visited by a boundary loop. -/
theorem mem_gradBoundaryPoints_of_boundary {nx ny nz : ℕ} {p : GridPoint}
    (hpin : inBounds nx ny nz p)
    (hbd : p.1 = 0 ∨ p.1 = nx - 1 ∨ p.2.1 = 0 ∨ p.2.1 = ny - 1 ∨
      p.2.2 = 0 ∨ p.2.2 = nz - 1) :
    p ∈ gradBoundaryPoints nx ny nz := by
  obtain ⟨i, j, k⟩ := p
  obtain ⟨hi, hj, hk⟩ := hpin
  unfold gradBoundaryPoints
  simp only [List.mem_append, List.mem_flatMap, List.mem_map]
  rcases hbd with h | h | h | h | h | h
  · exact Or.inl (Or.inl (Or.inl (Or.inl (Or.inl
      ⟨k, mem_countUp.mpr ⟨Nat.zero_le _, hk⟩, j, mem_countUp.mpr ⟨Nat.zero_le _, hj⟩,
        by simp only at h; rw [h]⟩))))
  · exact Or.inl (Or.inl (Or.inr
      ⟨k, mem_countUp.mpr ⟨Nat.zero_le _, hk⟩, j, mem_countUp.mpr ⟨Nat.zero_le _, hj⟩,
        by simp only at h; rw [h]⟩))
  · exact Or.inl (Or.inl (Or.inl (Or.inl (Or.inr
      ⟨k, mem_countUp.mpr ⟨Nat.zero_le _, hk⟩, i, mem_countUp.mpr ⟨Nat.zero_le _, hi⟩,
        by simp only at h; rw [h]⟩))))
  · exact Or.inl (Or.inr
      ⟨k, mem_countUp.mpr ⟨Nat.zero_le _, hk⟩, i, mem_countUp.mpr ⟨Nat.zero_le _, hi⟩,
        by simp only at h; rw [h]⟩)
  · exact Or.inl (Or.inl (Or.inl (Or.inr
      ⟨j, mem_countUp.mpr ⟨Nat.zero_le _, hj⟩, i, mem_countUp.mpr ⟨Nat.zero_le _, hi⟩,
        by simp only at h; rw [h]⟩)))
  · exact Or.inr
      ⟨j, mem_countUp.mpr ⟨Nat.zero_le _, hj⟩, i, mem_countUp.mpr ⟨Nat.zero_le _, hi⟩,
        by simp only at h; rw [h]⟩

/-- On interior points the interior slice's centered value coincides with the
boundary macro's per-axis conditional stencil. -/
theorem gradCentered_eq_gradStencil (sv : Grid ℚ) (p : GridPoint)
    (hi : 1 ≤ p.1 ∧ p.1 < sv.nx - 1) (hj : 1 ≤ p.2.1 ∧ p.2.1 < sv.ny - 1)
    (hk : 1 ≤ p.2.2 ∧ p.2.2 < sv.nz - 1) :
    gradCentered sv p = gradStencil sv p := by
  have h1 : ¬ p.1 = 0 := by omega
  have h2 : ¬ p.1 = sv.nx - 1 := by omega
  have h3 : ¬ p.2.1 = 0 := by omega
  have h4 : ¬ p.2.1 = sv.ny - 1 := by omega
  have h5 : ¬ p.2.2 = 0 := by omega
  have h6 : ¬ p.2.2 = sv.nz - 1 := by omega
  simp only [gradCentered, gradStencil, if_neg h1, if_neg h2, if_neg h3, if_neg h4,
    if_neg h5, if_neg h6]

/-- `ComputeGradient` overwrites every in-bounds output sample with the
per-point finite-difference stencil of the input field: centered differences
on interior axes, one-sided differences on boundary axes. -/
theorem computeGradient_data (gout : Grid V3) (sv : Grid ℚ) (p : GridPoint)
    (hp : inBounds sv.nx sv.ny sv.nz p) :
    (computeGradient gout sv).data (flatOffset sv.nx sv.ny p) = gradStencil sv p := by
  have hx : 1 ≤ sv.nx := lt_of_le_of_lt (Nat.zero_le _) hp.1
  have hy : 1 ≤ sv.ny := lt_of_le_of_lt (Nat.zero_le _) hp.2.1
  have hz : 1 ≤ sv.nz := lt_of_le_of_lt (Nat.zero_le _) hp.2.2
  have hp1 : p.1 < sv.nx := hp.1
  have hp2 : p.2.1 < sv.ny := hp.2.1
  have hp3 : p.2.2 < sv.nz := hp.2.2
  unfold computeGradient
  by_cases hbd : p.1 = 0 ∨ p.1 = sv.nx - 1 ∨ p.2.1 = 0 ∨ p.2.1 = sv.ny - 1 ∨
      p.2.2 = 0 ∨ p.2.2 = sv.nz - 1
  · apply foldl_write_mem_const sv.nx sv.ny (gradStencil sv) _ _ p
      (mem_gradBoundaryPoints_of_boundary hp hbd)
    intro q hq hqp
    have hqb := (gradBoundaryPoints_mem hq hx hy hz).1
    exact fun hqe => hqp (flatOffset_inj _ _ hqb.1 hqb.2.1 hp.1 hp.2.1 hqe)
  · push_neg at hbd
    have hib : 1 ≤ p.1 ∧ p.1 < sv.nx - 1 ∧ 1 ≤ p.2.1 ∧ p.2.1 < sv.ny - 1 ∧
        1 ≤ p.2.2 ∧ p.2.2 < sv.nz - 1 := by
      obtain ⟨h1, h2, h3, h4, h5, h6⟩ := hbd
      refine ⟨by omega, by omega, by omega, by omega, by omega, by omega⟩
    rw [foldl_write_frame]
    · unfold computeGradientInteriorSlice
      rw [foldl_write_mem_const sv.nx sv.ny (gradCentered sv) _ _ p
          (mem_gradInteriorPoints.mpr ⟨hib.1, hib.2.1, hib.2.2.1, hib.2.2.2.1,
            hib.2.2.2.2.1, hib.2.2.2.2.2⟩)]
      · exact gradCentered_eq_gradStencil sv p ⟨hib.1, hib.2.1⟩
          ⟨hib.2.2.1, hib.2.2.2.1⟩ ⟨hib.2.2.2.2.1, hib.2.2.2.2.2⟩
      · intro q hq hqp
        have hqb := mem_gradInteriorPoints.mp hq
        exact fun hqe => hqp (flatOffset_inj _ _ (by omega) (by omega) hp.1 hp.2.1 hqe)
    · intro q hq hqe
      have hqb := gradBoundaryPoints_mem hq hx hy hz
      have hqp : q = p := flatOffset_inj _ _ hqb.1.1 hqb.1.2.1 hp.1 hp.2.1 hqe
      subst hqp
      rcases hqb.2 with h | h | h | h | h | h <;> omega

/-- C7 (amended): for a scalar grid sampling the physical x-coordinate,
`f(i,j,k) = x0 + spacing.x * i` (consecutive x-samples differ by `spacing.x`),
with at least two points per axis and positive x spacing, `ComputeGradient`
writes the vector `(1, 0, 0)` at every in-bounds point — interior points via
the centered difference, boundary points via the one-sided difference. -/
theorem c7_gradient_of_linear_field (gout : Grid V3) (sv : Grid ℚ) (x0 : ℚ)
    (hnx : 2 ≤ sv.nx) (hny : 2 ≤ sv.ny) (hnz : 2 ≤ sv.nz) (hsx : 0 < sv.spacing.x)
    (hf : ∀ i < sv.nx, ∀ j < sv.ny, ∀ k < sv.nz,
      sv.data (flatOffset sv.nx sv.ny (i, j, k)) = x0 + sv.spacing.x * i)
    (p : GridPoint) (hp : inBounds sv.nx sv.ny sv.nz p) :
    (computeGradient gout sv).data (flatOffset sv.nx sv.ny p) = ⟨1, 0, 0⟩ := by
  obtain ⟨i, j, k⟩ := p
  obtain ⟨hi, hj, hk⟩ := hp
  have hi' : i < sv.nx := hi
  have hj' : j < sv.ny := hj
  have hk' : k < sv.nz := hk
  rw [computeGradient_data gout sv _ ⟨hi, hj, hk⟩]
  have hsx' : sv.spacing.x ≠ 0 := ne_of_gt hsx
  refine V3.eq_of_fields ?_ ?_ ?_
  · show (gradStencil sv (i, j, k)).x = 1
    simp only [gradStencil, reciprocalSpacing, halfReciprocalSpacing, V3.smul_x]
    split_ifs with hb1 hb2
    · rw [hf (i + 1) (by omega) j hj' k hk', hf i hi' j hj' k hk']
      push_cast
      field_simp
      ring
    · have hi1 : 1 ≤ i := by omega
      rw [hf i hi' j hj' k hk', hf (i - 1) (by omega) j hj' k hk', Nat.cast_sub hi1]
      push_cast
      field_simp
      ring
    · have hi1 : 1 ≤ i := by omega
      rw [hf (i + 1) (by omega) j hj' k hk', hf (i - 1) (by omega) j hj' k hk',
        Nat.cast_sub hi1]
      push_cast
      field_simp
      ring
  · show (gradStencil sv (i, j, k)).y = 0
    simp only [gradStencil]
    split_ifs with hb1 hb2
    · rw [hf i hi' (j + 1) (by omega) k hk', hf i hi' j hj' k hk']
      ring
    · rw [hf i hi' j hj' k hk', hf i hi' (j - 1) (by omega) k hk']
      ring
    · rw [hf i hi' (j + 1) (by omega) k hk', hf i hi' (j - 1) (by omega) k hk']
      ring
  · show (gradStencil sv (i, j, k)).z = 0
    simp only [gradStencil]
    split_ifs with hb1 hb2
    · rw [hf i hi' j hj' (k + 1) (by omega), hf i hi' j hj' k hk']
      ring
    · rw [hf i hi' j hj' k hk', hf i hi' j hj' (k - 1) (by omega)]
      ring
    · rw [hf i hi' j hj' (k + 1) (by omega), hf i hi' j hj' (k - 1) (by omega)]
      ring

/-- A 3x2x2 scalar grid with x spacing 2 sampling the physical x-coordinate:
`f(i,j,k) = 2*i`. -/
def svC7 : Grid ℚ := ⟨3, 2, 2, ⟨2, 1, 1⟩, fun n => ((n % 3 : ℕ) : ℚ) * 2⟩

/-- A matching 3x2x2 output grid for gradients. -/
def goutC7 : Grid V3 := ⟨3, 2, 2, ⟨2, 1, 1⟩, fun _ => 0⟩

/-- Counterexample to C7 as stated: the samples are the physical x-coordinate
(consecutive x-samples differ by `spacing.x = 2`), yet `ComputeGradient`
writes `(1, 0, 0)`, not `(1/spacing.x, 0, 0) = (1/2, 0, 0)`, at point
`(1,0,0)`. -/
theorem c7_gradient_linear_counterexample :
    (∀ i < 3, ∀ j < 2, ∀ k < 2,
      svC7.data (flatOffset svC7.nx svC7.ny (i, j, k)) = 0 + svC7.spacing.x * i) ∧
    (computeGradient goutC7 svC7).data (flatOffset svC7.nx svC7.ny (1, 0, 0)) = ⟨1, 0, 0⟩ ∧
    (computeGradient goutC7 svC7).data (flatOffset svC7.nx svC7.ny (1, 0, 0))
      ≠ ⟨1 / svC7.spacing.x, 0, 0⟩ := by
  refine ⟨?_, ?_, ?_⟩ <;> with_unfolding_all decide

/-- Witness for the amended C7 on the concrete linear grid. -/
theorem c7_gradient_of_linear_field_witness :
    (2 ≤ svC7.nx ∧ 2 ≤ svC7.ny ∧ 2 ≤ svC7.nz ∧ 0 < svC7.spacing.x ∧
      (∀ i < svC7.nx, ∀ j < svC7.ny, ∀ k < svC7.nz,
        svC7.data (flatOffset svC7.nx svC7.ny (i, j, k)) = 0 + svC7.spacing.x * i) ∧
      inBounds svC7.nx svC7.ny svC7.nz ((1, 0, 0) : GridPoint)) ∧
    (computeGradient goutC7 svC7).data (flatOffset svC7.nx svC7.ny (1, 0, 0)) = ⟨1, 0, 0⟩ :=
  ⟨⟨by decide, by decide, by decide, by with_unfolding_all decide,
      by with_unfolding_all decide, by decide⟩,
    c7_gradient_of_linear_field goutC7 svC7 0 (by decide) (by decide) (by decide)
      (by with_unfolding_all decide) (by with_unfolding_all decide) (1, 0, 0) (by decide)⟩

/-- A 2x2x2 scalar grid whose x spacing is exactly `FLT_EPSILON` and whose
samples are the x index: `f(i,j,k) = i`. -/
def svC9 : Grid ℚ := ⟨2, 2, 2, ⟨FLT_EPSILON, 1, 1⟩, fun n => ((n % 2 : ℕ) : ℚ)⟩

/-- A matching 2x2x2 output grid for gradients. -/
def goutC9 : Grid V3 := ⟨2, 2, 2, ⟨FLT_EPSILON, 1, 1⟩, fun _ => 0⟩

/-- Counterexample to C9 as stated: the x spacing is `FLT_EPSILON` (within the
claimed degenerate range), yet `ComputeGradient` divides by it rather than
substituting reciprocal 0 — the x gradient component is `2^23`, not 0, so the
x axis's contribution does not collapse.  Only the z axis carries the guard. -/
theorem c9_degenerate_axis_counterexample :
    svC9.spacing.x ≤ FLT_EPSILON ∧
    ((computeGradient goutC9 svC9).data (flatOffset svC9.nx svC9.ny (0, 0, 0))).x
      = 8388608 ∧
    ((8388608 : ℚ)) ≠ 0 := by
  refine ⟨?_, ?_, ?_⟩
  · with_unfolding_all decide
  · with_unfolding_all rfl
  · with_unfolding_all decide

/-- C9 (amended): the divide-by-zero guard covers only the z axis.  Whenever
`spacing.z ≤ FLT_EPSILON`, the shared reciprocal-spacing rule used by the
differential operators and the Poisson relaxation step substitutes 0 for the
z reciprocal, so the z axis's contribution collapses to zero: the gradient's
z component is 0 at every point and the SOR update value reduces to the
x/y-only formula.  (The x and y axes are never guarded, per the
counterexample.) -/
theorem c9_z_axis_guard_only (s : V3) (hsz : s.z ≤ FLT_EPSILON) :
    (reciprocalSpacing s).z = 0 ∧
    (∀ sv : Grid ℚ, sv.spacing = s → ∀ p : GridPoint,
      (gradStencil sv p).z = 0 ∧ (gradCentered sv p).z = 0) ∧
    (∀ soln lap : Grid V3, lap.spacing = s → ∀ p : GridPoint,
      sorValue soln lap p
        = (1 - relax) • soln.data (flatOffset lap.nx lap.ny p)
          + relax • ((((1 : ℚ) / 2) / ((1 / s.x) ^ 2 + (1 / s.y) ^ 2)) •
            (((1 / s.x) ^ 2) • (soln.data (flatOffset lap.nx lap.ny (p.1 + 1, p.2.1, p.2.2))
                + soln.data (flatOffset lap.nx lap.ny (p.1 - 1, p.2.1, p.2.2)))
              + ((1 / s.y) ^ 2) • (soln.data (flatOffset lap.nx lap.ny (p.1, p.2.1 + 1, p.2.2))
                + soln.data (flatOffset lap.nx lap.ny (p.1, p.2.1 - 1, p.2.2)))
              - lap.data (flatOffset lap.nx lap.ny p)))) := by
  have hrz : (reciprocalSpacing s).z = 0 := by
    simp only [reciprocalSpacing, if_neg (not_lt.mpr hsz)]
  refine ⟨hrz, ?_, ?_⟩
  · intro sv hsv p
    constructor
    · simp only [gradStencil, halfReciprocalSpacing, V3.smul_z, hsv, hrz]
      split_ifs <;> ring
    · simp only [gradCentered, halfReciprocalSpacing, V3.smul_z, hsv, hrz]
      ring
  · intro soln lap hlap p
    apply V3.eq_of_fields <;>
      simp only [sorValue, hlap, hrz, reciprocalSpacing_x, reciprocalSpacing_y, V3.add_x,
        V3.add_y, V3.add_z, V3.sub_x, V3.sub_y, V3.sub_z, V3.smul_x, V3.smul_y, V3.smul_z] <;>
      ring

/-- Witness for the amended C9 at a degenerate (2D) spacing. -/
theorem c9_z_axis_guard_only_witness :
    ((V3.mk 1 1 0).z ≤ FLT_EPSILON) ∧
    ((reciprocalSpacing ⟨1, 1, 0⟩).z = 0 ∧
      (∀ sv : Grid ℚ, sv.spacing = ⟨1, 1, 0⟩ → ∀ p : GridPoint,
        (gradStencil sv p).z = 0 ∧ (gradCentered sv p).z = 0) ∧
      (∀ soln lap : Grid V3, lap.spacing = ⟨1, 1, 0⟩ → ∀ p : GridPoint,
        sorValue soln lap p
          = (1 - relax) • soln.data (flatOffset lap.nx lap.ny p)
            + relax • ((((1 : ℚ) / 2) / ((1 / (V3.mk 1 1 0).x) ^ 2 + (1 / (V3.mk 1 1 0).y) ^ 2)) •
              (((1 / (V3.mk 1 1 0).x) ^ 2) •
                  (soln.data (flatOffset lap.nx lap.ny (p.1 + 1, p.2.1, p.2.2))
                    + soln.data (flatOffset lap.nx lap.ny (p.1 - 1, p.2.1, p.2.2)))
                + ((1 / (V3.mk 1 1 0).y) ^ 2) •
                  (soln.data (flatOffset lap.nx lap.ny (p.1, p.2.1 + 1, p.2.2))
                    + soln.data (flatOffset lap.nx lap.ny (p.1, p.2.1 - 1, p.2.2)))
                - lap.data (flatOffset lap.nx lap.ny p))))) :=
  ⟨by with_unfolding_all decide, c9_z_axis_guard_only ⟨1, 1, 0⟩ (by with_unfolding_all decide)⟩

/-- One conditional partial derivative, translated from
`SET_PARTIAL_DERIVATIVE_CONDITIONALLY` exactly as written:
`coord` is `index[componentIndex]` (the raw loop index, which the source uses
directly as a *flat* offset for all three validity tests), `selfOff` is
`offsetX0Y0Z0`, `stride` is the flat-offset distance to the axis neighbor
(`plusIndex = selfOff + stride`, `minusIndex = selfOff - stride`), and `rc`,
`hrc` are `reciprocalSpacing.component` and `halfReciprocalSpacing.component`.
The source performs two sequential assignments to `gradient.component`:
`if (2 == idxDiff) { centered }` and then `if (1 == idxDiff) { one-sided }
else { invalid }` — the second statement's `else` runs whenever `idxDiff ≠ 1`,
including `idxDiff = 2`, so the just-assigned centered value is immediately
overwritten; the surviving value is one-sided for `idxDiff = 1` and the
invalid sentinel otherwise. -/
def condComponent (sv : Grid (Option ℚ)) (selfOff coord dimMinus1c stride : ℕ)
    (rc hrc : ℚ) : Option ℚ :=
  if (sv.data coord).isNone then none
  else
    let idxUpper := if coord < dimMinus1c ∧ (sv.data (coord + 1)).isSome
      then selfOff + stride else selfOff
    let idxLower := if 0 < coord ∧ (sv.data (coord - 1)).isSome
      then selfOff - stride else selfOff
    let idxDiff := idxUpper - idxLower
    let afterCentered : Option ℚ :=
      if idxDiff = 2 then omul (osub (sv.data idxUpper) (sv.data idxLower)) hrc else none
    if idxDiff = 1 then omul (osub (sv.data idxUpper) (sv.data idxLower)) rc
    else (fun _ => none) afterCentered

/-- The conditional gradient value written at one visited point by
`ComputeGradientConditionallySlice`. -/
def condStencil (sv : Grid (Option ℚ)) (p : GridPoint) : V3N :=
  let nx := sv.nx
  let ny := sv.ny
  let r := reciprocalSpacing sv.spacing
  let h := halfReciprocalSpacing sv.spacing
  let selfOff := flatOffset nx ny p
  ⟨condComponent sv selfOff p.1 (sv.nx - 1) 1 r.x h.x,
   condComponent sv selfOff p.2.1 (sv.ny - 1) nx r.y h.y,
   condComponent sv selfOff p.2.2 (sv.nz - 1) (nx * ny) r.z h.z⟩

/-- Points visited by `ComputeGradientConditionallySlice` over
`[izStart, izEnd)`: `index[1]` in `[1, dims[1])` and `index[0]` in
`[1, dims[0])` (the loops exclude index 0 but include the top index). -/
def condPoints (nx ny izStart izEnd : ℕ) : List GridPoint :=
  (countUp izStart izEnd).flatMap fun k =>
    (countUp 1 ny).flatMap fun j =>
      (countUp 1 nx).map fun i => (i, j, k)

/-- `ComputeGradientConditionallySlice`. -/
def computeGradientConditionallySlice (gout : Grid V3N) (sv : Grid (Option ℚ))
    (izStart izEnd : ℕ) : Grid V3N :=
  (condPoints sv.nx sv.ny izStart izEnd).foldl
    (fun s q => writeG s (flatOffset sv.nx sv.ny q) (condStencil sv q)) gout

/-- `ComputeGradientConditionally` (serial path): the slice `[1, dims[2])`. -/
def computeGradientConditionally (gout : Grid V3N) (sv : Grid (Option ℚ)) : Grid V3N :=
  computeGradientConditionallySlice gout sv 1 sv.nz

theorem mem_condPoints {nx ny izStart izEnd : ℕ} {p : GridPoint} :
    p ∈ condPoints nx ny izStart izEnd ↔
      1 ≤ p.1 ∧ p.1 < nx ∧ 1 ≤ p.2.1 ∧ p.2.1 < ny ∧
        izStart ≤ p.2.2 ∧ p.2.2 < izEnd := by
  obtain ⟨i, j, k⟩ := p
  unfold condPoints
  simp only [List.mem_flatMap, List.mem_map, Prod.mk.injEq]
  constructor
  · rintro ⟨k', hk, j', hj, i', hi, rfl, rfl, rfl⟩
    rw [mem_countUp] at hk hj hi
    exact ⟨hi.1, hi.2, hj.1, hj.2, hk.1, hk.2⟩
  · rintro ⟨hi1, hi2, hj1, hj2, hk1, hk2⟩
    exact ⟨k, mem_countUp.mpr ⟨hk1, hk2⟩, j, mem_countUp.mpr ⟨hj1, hj2⟩,
      i, mem_countUp.mpr ⟨hi1, hi2⟩, rfl, rfl, rfl⟩

/-- The conditional gradient writes `condStencil` at every visited point. -/
theorem computeGradientConditionally_data (gout : Grid V3N) (sv : Grid (Option ℚ))
    (p : GridPoint) (hp : p ∈ condPoints sv.nx sv.ny 1 sv.nz) :
    (computeGradientConditionally gout sv).data (flatOffset sv.nx sv.ny p)
      = condStencil sv p := by
  have hb := mem_condPoints.mp hp
  unfold computeGradientConditionally computeGradientConditionallySlice
  apply foldl_write_mem_const sv.nx sv.ny (condStencil sv) _ _ p hp
  intro q hq hqp
  have hqb := mem_condPoints.mp hq
  exact fun hqe => hqp (flatOffset_inj _ _ (by omega) (by omega) (by omega) (by omega) hqe)

/-- When the sample at `selfOff` is the invalid sentinel, every outcome of the
conditional-derivative macro is the invalid sentinel: the wrongly-indexed
own-point test may pass, but an `idxDiff = 1` stencil necessarily involves
`selfOff` itself (so NaN propagates through the arithmetic), and every other
`idxDiff` falls into the overwriting `else`. -/
theorem condComponent_self_invalid (sv : Grid (Option ℚ)) (selfOff coord dimMinus1c stride : ℕ)
    (rc hrc : ℚ) (hstride : 1 ≤ stride) (hso : stride ≤ selfOff)
    (hself : sv.data selfOff = none) :
    condComponent sv selfOff coord dimMinus1c stride rc hrc = none := by
  unfold condComponent
  by_cases h0 : (sv.data coord).isNone
  · rw [if_pos h0]
  · rw [if_neg h0]
    by_cases hu : coord < dimMinus1c ∧ (sv.data (coord + 1)).isSome <;>
      by_cases hl : 0 < coord ∧ (sv.data (coord - 1)).isSome
    · simp only [if_pos hu, if_pos hl]
      rw [if_neg (by omega)]
    · simp only [if_pos hu, if_neg hl]
      rcases Nat.lt_or_ge stride 2 with h2 | h2
      · have h1 : stride = 1 := by omega
        rw [if_pos (by omega), hself]
        cases sv.data (selfOff + stride) <;> rfl
      · rw [if_neg (by omega)]
    · simp only [if_neg hu, if_pos hl]
      rcases Nat.lt_or_ge stride 2 with h2 | h2
      · have h1 : stride = 1 := by omega
        rw [if_pos (by omega), hself]
        rfl
      · rw [if_neg (by omega)]
    · simp only [if_neg hu, if_neg hl]
      rw [if_neg (by omega)]

/-- C6: at every point the conditional gradient visits whose own scalar
sample is the invalid (NaN) sentinel, the written gradient is marked invalid
in all three axis components, whatever the neighboring samples hold. -/
theorem c6_invalid_point_gradient (gout : Grid V3N) (sv : Grid (Option ℚ)) (p : GridPoint)
    (hp : p ∈ condPoints sv.nx sv.ny 1 sv.nz)
    (hnan : sv.data (flatOffset sv.nx sv.ny p) = none) :
    (computeGradientConditionally gout sv).data (flatOffset sv.nx sv.ny p)
      = ⟨none, none, none⟩ := by
  rw [computeGradientConditionally_data gout sv p hp]
  have hb := mem_condPoints.mp hp
  have hmuly : sv.nx ≤ sv.nx * p.2.1 := Nat.le_mul_of_pos_right _ (by omega)
  have hmulz : sv.nx * sv.ny ≤ sv.nx * sv.ny * p.2.2 := Nat.le_mul_of_pos_right _ (by omega)
  have hflat : flatOffset sv.nx sv.ny p = p.1 + sv.nx * p.2.1 + sv.nx * sv.ny * p.2.2 := rfl
  simp only [condStencil, V3N.mk.injEq]
  refine ⟨?_, ?_, ?_⟩
  · exact condComponent_self_invalid sv _ _ _ _ _ _ (by omega) (by omega) hnan
  · refine condComponent_self_invalid sv _ _ _ _ _ _ (by omega) ?_ hnan
    omega
  · refine condComponent_self_invalid sv _ _ _ _ _ _ ?_ ?_ hnan
    · have := Nat.mul_pos (show 0 < sv.nx by omega) (show 0 < sv.ny by omega)
      omega
    · omega

/-- A 3x3x3 scalar grid for C6 whose center sample (flat offset 13) is the
invalid sentinel and whose other samples are valid zeroes. -/
def svC6 : Grid (Option ℚ) := ⟨3, 3, 3, ⟨1, 1, 1⟩, fun n => if n = 13 then none else some 0⟩

/-- A matching 3x3x3 conditional-gradient output grid. -/
def goutC6 : Grid V3N := ⟨3, 3, 3, ⟨1, 1, 1⟩, fun _ => ⟨some 0, some 0, some 0⟩⟩

/-- Witness for C6 at the invalid center point. -/
theorem c6_invalid_point_gradient_witness :
    (((1, 1, 1) : GridPoint) ∈ condPoints svC6.nx svC6.ny 1 svC6.nz ∧
      svC6.data (flatOffset svC6.nx svC6.ny (1, 1, 1)) = none) ∧
    (computeGradientConditionally goutC6 svC6).data (flatOffset svC6.nx svC6.ny (1, 1, 1))
      = ⟨none, none, none⟩ :=
  ⟨⟨by decide, by decide⟩,
    c6_invalid_point_gradient goutC6 svC6 (1, 1, 1) (by decide) (by decide)⟩

/-- A 3x3x3 scalar grid for C5, everywhere valid, sampling the x index:
`f(i,j,k) = some i`. -/
def svC5 : Grid (Option ℚ) := ⟨3, 3, 3, ⟨1, 1, 1⟩, fun n => some ((n % 3 : ℕ) : ℚ)⟩

/-- A matching 3x3x3 conditional-gradient output grid. -/
def goutC5 : Grid V3N := ⟨3, 3, 3, ⟨1, 1, 1⟩, fun _ => ⟨none, none, none⟩⟩

/-- C5 (failing evaluation): at the center point of an everywhere-valid grid
both x neighbors are in-bounds and valid, yet `ComputeGradientConditionally`
writes the invalid sentinel for the x component (the centered-difference
assignment is overwritten by the following `if/else`, whose `else` covers
`idxDiff = 2`), where the claim requires the centered difference
`(f[+1]-f[-1])*0.5/spacing.x = some 1`.  The y and z components are likewise
invalid because `idxDiff` is a multiple of the row stride, never 1 or 2. -/
theorem c5_both_valid_centered_counterexample :
    (svC5.data (flatOffset svC5.nx svC5.ny (1, 1, 1))).isSome ∧
    (svC5.data (flatOffset svC5.nx svC5.ny (0, 1, 1))).isSome ∧
    (svC5.data (flatOffset svC5.nx svC5.ny (2, 1, 1))).isSome ∧
    (computeGradientConditionally goutC5 svC5).data (flatOffset svC5.nx svC5.ny (1, 1, 1))
      = ⟨none, none, none⟩ := by
  refine ⟨?_, ?_, ?_, ?_⟩ <;> with_unfolding_all decide

/-- The reduction loops' visit order over a whole grid: z outer, y middle,
x inner, as in `FindValueStats`. -/
def allPoints (nx ny nz : ℕ) : List GridPoint :=
  (countUp 0 nz).flatMap fun k =>
    (countUp 0 ny).flatMap fun j =>
      (countUp 0 nx).map fun i => (i, j, k)

/-- One `FindValueStats` loop body on the accumulator
`(valMin, valMax, sum, sum2)`:
`valMin = Min2(value, valMin); valMax = Max2(value, valMax);
 sum += value; sum2 += value * value`. -/
def statsStep (acc : ℚ × ℚ × ℚ × ℚ) (v : ℚ) : ℚ × ℚ × ℚ × ℚ :=
  (min v acc.1, max v acc.2.1, acc.2.2.1 + v, acc.2.2.2 + v * v)

/-- `FindValueStats`, returning `(valMin, valMax, valMean, stdDevSqArg)`.
The source's final line is `valStdDev = sqrt( Max2( variance , 0.0f ) )`; the
square root leaves ℚ, so the embedding carries the exact argument
`Max2(variance, 0)` that is passed to `sqrt` (the floored variance). -/
def findValueStats (g : Grid ℚ) : ℚ × ℚ × ℚ × ℚ :=
  let vals := (allPoints g.nx g.ny g.nz).map fun p => g.data (flatOffset g.nx g.ny p)
  let acc := vals.foldl statsStep (FLT_MAX, -FLT_MAX, 0, 0)
  let numValues : ℚ := ((g.nx * g.ny * g.nz : ℕ) : ℚ)
  let valMean := acc.2.2.1 / numValues
  let mean2 := acc.2.2.2 / numValues
  let variance := mean2 - valMean * valMean
  (acc.1, acc.2.1, valMean, max variance 0)

/-- The residual-statistics cooking at the end of
`StepTowardVectorPoissonSolution` (executed when `residualsCount != 0`):
`mMean = mMean / count; mean2 = mStdDev / count; variance = mean2 - mMean²;
mStdDev = fsqrtf( variance )`.  Note the source applies *no* floor at 0 here.
The residuals are vector magnitudes (real square roots), so this piece is
modelled over ℝ; the pair holds `(mMean, stdDevSqArg)` with `stdDevSqArg` the
exact argument handed to `fsqrtf`. -/
noncomputable def cookResidualStats (resSum resSum2 : ℝ) (residualsCount : ℕ) : ℝ × ℝ :=
  let mMean := resSum / residualsCount
  let mean2 := resSum2 / residualsCount
  (mMean, mean2 - mMean * mMean)

theorem statsFold_sum (l : List ℚ) (a : ℚ × ℚ × ℚ × ℚ) :
    (l.foldl statsStep a).2.2.1 = a.2.2.1 + l.sum ∧
    (l.foldl statsStep a).2.2.2 = a.2.2.2 + (l.map fun v => v * v).sum := by
  induction l generalizing a with
  | nil => simp
  | cons v rest ih =>
    rw [List.foldl_cons]
    refine ⟨?_, ?_⟩
    · rw [(ih _).1, List.sum_cons]
      simp only [statsStep]
      ring
    · rw [(ih _).2, List.map_cons, List.sum_cons]
      simp only [statsStep]
      ring

theorem sum_sq_dev (l : List ℝ) (m : ℝ) :
    (l.map fun r => (r - m) * (r - m)).sum
      = (l.map fun r => r * r).sum - 2 * m * l.sum + l.length * (m * m) := by
  induction l with
  | nil => simp
  | cons r rest ih =>
    simp only [List.map_cons, List.sum_cons, List.length_cons, ih]
    push_cast
    ring

/-- The exact variance `sum2/n − mean²` of any nonempty list of reals is
nonnegative, being the mean squared deviation. -/
theorem list_variance_nonneg (l : List ℝ) (hl : l ≠ []) :
    0 ≤ (l.map fun r => r * r).sum / (l.length : ℝ)
        - (l.sum / (l.length : ℝ)) * (l.sum / (l.length : ℝ)) := by
  have hn : 0 < (l.length : ℝ) := by
    have := List.length_pos.mpr hl
    exact_mod_cast this
  have hne : (l.length : ℝ) ≠ 0 := ne_of_gt hn
  have hdev : 0 ≤ (l.map fun r => (r - l.sum / l.length) * (r - l.sum / l.length)).sum := by
    refine List.sum_nonneg ?_
    intro x hx
    simp only [List.mem_map] at hx
    obtain ⟨r, _, rfl⟩ := hx
    exact mul_self_nonneg _
  have hid : (l.map fun r => r * r).sum / (l.length : ℝ)
      - (l.sum / (l.length : ℝ)) * (l.sum / (l.length : ℝ))
      = (l.map fun r => (r - l.sum / l.length) * (r - l.sum / l.length)).sum
          / (l.length : ℝ) := by
    rw [sum_sq_dev]
    field_simp
    ring
  rw [hid]
  exact div_nonneg hdev (le_of_lt hn)

/-- C10: the standard deviations the suite produces are
`sqrt(max(variance, 0))` with `variance = sum2/count − mean²`.
`FindValueStats` floors the variance at 0 literally before its `sqrt`; the
relaxation pass's residual cooking passes the raw variance to `fsqrtf`
without the floor, but that variance is nonnegative in exact arithmetic
(mean squared deviation), so the value under the square root equals the
floored one. -/
theorem c10_stddev_variance_floor (g : Grid ℚ) (hn : g.nx * g.ny * g.nz ≠ 0)
    (rs : List ℝ) (hrs : rs ≠ []) :
    (findValueStats g).2.2.2
      = max (((allPoints g.nx g.ny g.nz).map fun p =>
            g.data (flatOffset g.nx g.ny p) * g.data (flatOffset g.nx g.ny p)).sum
              / ((g.nx * g.ny * g.nz : ℕ) : ℚ)
          - (((allPoints g.nx g.ny g.nz).map fun p =>
              g.data (flatOffset g.nx g.ny p)).sum / ((g.nx * g.ny * g.nz : ℕ) : ℚ)) ^ 2) 0 ∧
    Real.sqrt (cookResidualStats rs.sum ((rs.map fun r => r * r).sum) rs.length).2
      = Real.sqrt
          (max (cookResidualStats rs.sum ((rs.map fun r => r * r).sum) rs.length).2 0) := by
  constructor
  · have hs := statsFold_sum
      ((allPoints g.nx g.ny g.nz).map fun p => g.data (flatOffset g.nx g.ny p))
      (FLT_MAX, -FLT_MAX, 0, 0)
    show max _ 0 = max _ 0
    rw [hs.1, hs.2]
    simp only [List.map_map, Function.comp_def]
    congr 1
    ring
  · have hv := list_variance_nonneg rs hrs
    have : (cookResidualStats rs.sum ((rs.map fun r => r * r).sum) rs.length).2
        = (rs.map fun r => r * r).sum / (rs.length : ℝ)
          - (rs.sum / (rs.length : ℝ)) * (rs.sum / (rs.length : ℝ)) := rfl
    rw [this, max_eq_left hv]

/-- A tiny 2x1x1 grid for the C10 witness. -/
def gridC10 : Grid ℚ := ⟨2, 1, 1, ⟨1, 1, 1⟩, fun n => (n : ℚ)⟩

/-- Witness for C10 on a concrete grid and residual list. -/
theorem c10_stddev_variance_floor_witness :
    (gridC10.nx * gridC10.ny * gridC10.nz ≠ 0 ∧ ([(1 : ℝ), 3] ≠ [])) ∧
    ((findValueStats gridC10).2.2.2
      = max (((allPoints gridC10.nx gridC10.ny gridC10.nz).map fun p =>
            gridC10.data (flatOffset gridC10.nx gridC10.ny p)
              * gridC10.data (flatOffset gridC10.nx gridC10.ny p)).sum
              / ((gridC10.nx * gridC10.ny * gridC10.nz : ℕ) : ℚ)
          - (((allPoints gridC10.nx gridC10.ny gridC10.nz).map fun p =>
              gridC10.data (flatOffset gridC10.nx gridC10.ny p)).sum
                / ((gridC10.nx * gridC10.ny * gridC10.nz : ℕ) : ℚ)) ^ 2) 0 ∧
    Real.sqrt (cookResidualStats ([(1 : ℝ), 3]).sum ((([(1 : ℝ), 3]).map fun r => r * r).sum)
        ([(1 : ℝ), 3]).length).2
      = Real.sqrt
          (max (cookResidualStats ([(1 : ℝ), 3]).sum ((([(1 : ℝ), 3]).map fun r => r * r).sum)
            ([(1 : ℝ), 3]).length).2 0)) :=
  ⟨⟨by decide, by simp⟩,
    c10_stddev_variance_floor gridC10 (by decide) [(1 : ℝ), 3] (by simp)⟩
